import Mathlib

set_option maxRecDepth 8000
set_option maxHeartbeats 1000000

namespace AicmSpec

/-!
Verification development for the aicostmanager client SDK core:
the delivery subsystem, the triggered-limits enforcement state, the
tracker facade, and the shared INI store.  Python sources are embedded
shallowly: dictionaries holding JSON data become a `Json` inductive,
the stdlib `json.dumps`/`json.loads` pair is modelled character by
character (default separators, `ensure_ascii=True`), stateful code
becomes explicit state passing, and raised exceptions become `Option`
components of the result.
-/

/- Character constants written via code points so that no string or
character literal needs an escape. -/
def qChar : Char := Char.ofNat 34

def bsChar : Char := Char.ofNat 92

def lbChar : Char := Char.ofNat 123

def rbChar : Char := Char.ofNat 125

/-- JSON values as produced by Python dicts/lists/strings/ints/bools/None.
Strings are lists of characters; object fields keep insertion order, as
Python dicts do.  Floats are outside the model: the envelope payloads the
SDK stores are objects of strings, integers, arrays and nested objects. -/
inductive Json where
  | null : Json
  | bool (b : Bool) : Json
  | num (n : Int) : Json
  | str (s : List Char) : Json
  | arr (elems : List Json) : Json
  | obj (fields : List (List Char × Json)) : Json

def digitChar (d : Nat) : Char :=
  if d = 0 then '0' else if d = 1 then '1' else if d = 2 then '2'
  else if d = 3 then '3' else if d = 4 then '4' else if d = 5 then '5'
  else if d = 6 then '6' else if d = 7 then '7' else if d = 8 then '8' else '9'

def isDigitChar (c : Char) : Bool := 48 ≤ c.toNat && c.toNat ≤ 57

def digitVal (c : Char) : Nat := c.toNat - 48

/-- Decimal digits of a positive natural, most significant first (empty for 0). -/
def natDigits (n : Nat) : List Char :=
  if h : n = 0 then [] else natDigits (n / 10) ++ [digitChar (n % 10)]
termination_by n
decreasing_by exact Nat.div_lt_self (Nat.pos_of_ne_zero h) (by omega)

/-- Model of Python `str(n)` for a natural number. -/
def natToChars (n : Nat) : List Char := if n = 0 then ['0'] else natDigits n

/-- Model of Python `str(n)` for an int, as emitted by `json.dumps`. -/
def intToChars (n : Int) : List Char :=
  if n < 0 then '-' :: natToChars n.natAbs else natToChars n.toNat

def hexDigitChar (d : Nat) : Char :=
  if d = 0 then '0' else if d = 1 then '1' else if d = 2 then '2'
  else if d = 3 then '3' else if d = 4 then '4' else if d = 5 then '5'
  else if d = 6 then '6' else if d = 7 then '7' else if d = 8 then '8'
  else if d = 9 then '9' else if d = 10 then 'a' else if d = 11 then 'b'
  else if d = 12 then 'c' else if d = 13 then 'd' else if d = 14 then 'e' else 'f'

def hexVal (c : Char) : Option Nat :=
  if 48 ≤ c.toNat ∧ c.toNat ≤ 57 then some (c.toNat - 48)
  else if 97 ≤ c.toNat ∧ c.toNat ≤ 102 then some (c.toNat - 87)
  else if 65 ≤ c.toNat ∧ c.toNat ≤ 70 then some (c.toNat - 55)
  else none

def hex4 (n : Nat) : List Char :=
  [hexDigitChar (n / 4096 % 16), hexDigitChar (n / 256 % 16),
   hexDigitChar (n / 16 % 16), hexDigitChar (n % 16)]

/-- Model of the `json.dumps` escaping of one character with
`ensure_ascii=True`: short escapes for quote, backslash and the usual
control characters, `\uXXXX` for other non-printable or non-ASCII
characters, and a surrogate pair for astral characters. -/
def escapeChar (c : Char) : List Char :=
  if c.toNat = 34 then [bsChar, qChar]
  else if c.toNat = 92 then [bsChar, bsChar]
  else if c.toNat = 10 then [bsChar, 'n']
  else if c.toNat = 13 then [bsChar, 'r']
  else if c.toNat = 9 then [bsChar, 't']
  else if c.toNat = 8 then [bsChar, 'b']
  else if c.toNat = 12 then [bsChar, 'f']
  else if 32 ≤ c.toNat ∧ c.toNat ≤ 126 then [c]
  else if c.toNat < 65536 then bsChar :: 'u' :: hex4 c.toNat
  else
    bsChar :: 'u' :: hex4 (55296 + (c.toNat - 65536) / 1024) ++
      bsChar :: 'u' :: hex4 (56320 + (c.toNat - 65536) % 1024)

def escapeChars : List Char → List Char
  | [] => []
  | c :: rest => escapeChar c ++ escapeChars rest

mutual

/-- Model of Python `json.dumps` with its default separators
`(", ", ": ")` and `ensure_ascii=True`. -/
def dumpsVal : Json → List Char
  | .null => "null".toList
  | .bool b => (if b then "true" else "false").toList
  | .num n => intToChars n
  | .str s => qChar :: escapeChars s ++ [qChar]
  | .arr [] => ['[', ']']
  | .arr (x :: xs) => '[' :: dumpsElems x xs ++ [']']
  | .obj [] => [lbChar, rbChar]
  | .obj ((k, v) :: fs) => lbChar :: dumpsFields k v fs ++ [rbChar]
termination_by e => sizeOf e
decreasing_by all_goals simp_wf <;> omega

def dumpsElems (x : Json) (xs : List Json) : List Char :=
  match xs with
  | [] => dumpsVal x
  | y :: ys => dumpsVal x ++ ',' :: ' ' :: dumpsElems y ys
termination_by sizeOf x + sizeOf xs
decreasing_by all_goals simp_wf <;> omega

def dumpsFields (k : List Char) (v : Json) (fs : List (List Char × Json)) : List Char :=
  match fs with
  | [] => qChar :: escapeChars k ++ qChar :: ':' :: ' ' :: dumpsVal v
  | (k2, v2) :: gs =>
      (qChar :: escapeChars k ++ qChar :: ':' :: ' ' :: dumpsVal v) ++
        ',' :: ' ' :: dumpsFields k2 v2 gs
termination_by sizeOf v + sizeOf fs
decreasing_by all_goals simp_wf <;> omega

end

mutual

/-- Structural size used as parser fuel bound. -/
def sizeV : Json → Nat
  | .null => 1
  | .bool _ => 1
  | .num _ => 1
  | .str _ => 1
  | .arr xs => 1 + sizeL xs
  | .obj fs => 1 + sizeF fs
termination_by e => sizeOf e
decreasing_by all_goals simp_wf <;> omega

def sizeL : List Json → Nat
  | [] => 0
  | x :: xs => 1 + sizeV x + sizeL xs
termination_by xs => sizeOf xs
decreasing_by all_goals simp_wf <;> omega

def sizeF : List (List Char × Json) → Nat
  | [] => 0
  | (_, v) :: fs => 1 + sizeV v + sizeF fs
termination_by fs => sizeOf fs
decreasing_by all_goals simp_wf <;> omega

end

mutual

/-- Well-formedness for the round-trip theorem: every string (and key)
stays inside the Basic Multilingual Plane, so that the `\uXXXX` escape
decodes without surrogate-pair recombination. -/
def wfV : Json → Bool
  | .null => true
  | .bool _ => true
  | .num _ => true
  | .str s => s.all (fun c => c.toNat < 65536)
  | .arr xs => wfL xs
  | .obj fs => wfF fs
termination_by e => sizeOf e
decreasing_by all_goals simp_wf <;> omega

def wfL : List Json → Bool
  | [] => true
  | x :: xs => wfV x && wfL xs
termination_by xs => sizeOf xs
decreasing_by all_goals simp_wf <;> omega

def wfF : List (List Char × Json) → Bool
  | [] => true
  | (k, v) :: fs => k.all (fun c => c.toNat < 65536) && wfV v && wfF fs
termination_by fs => sizeOf fs
decreasing_by all_goals simp_wf <;> omega

end

def isWsChar (c : Char) : Bool :=
  c.toNat = 32 || c.toNat = 9 || c.toNat = 10 || c.toNat = 13

/-- JSON whitespace skipping, as in the `json.loads` scanner. -/
def skipWs : List Char → List Char
  | [] => []
  | c :: rest => if isWsChar c then skipWs rest else c :: rest

def takeDigits : List Char → List Char × List Char
  | [] => ([], [])
  | c :: rest =>
    if isDigitChar c then
      let p := takeDigits rest
      (c :: p.1, p.2)
    else ([], c :: rest)

def digitsToNat (ds : List Char) : Nat :=
  ds.foldl (fun acc c => acc * 10 + digitVal c) 0

def startsDigit : List Char → Bool
  | [] => false
  | c :: _ => isDigitChar c

/-- Model of the `json.loads` string scanner: reads characters after the
opening quote up to the closing quote, decoding escapes.  Lone-surrogate
`\uXXXX` sequences (which Python recombines into astral characters) are
outside the model and decode to the `Char.ofNat` fallback. -/
def parseStringBody : List Char → Option (List Char × List Char)
  | [] => none
  | c :: rest =>
    if c.toNat = 34 then some ([], rest)
    else if c.toNat = 92 then
      match rest with
      | [] => none
      | e :: r2 =>
        if e.toNat = 34 then (parseStringBody r2).map (fun p => (qChar :: p.1, p.2))
        else if e.toNat = 92 then (parseStringBody r2).map (fun p => (bsChar :: p.1, p.2))
        else if e.toNat = 47 then (parseStringBody r2).map (fun p => ('/' :: p.1, p.2))
        else if e.toNat = 110 then
          (parseStringBody r2).map (fun p => (Char.ofNat 10 :: p.1, p.2))
        else if e.toNat = 114 then
          (parseStringBody r2).map (fun p => (Char.ofNat 13 :: p.1, p.2))
        else if e.toNat = 116 then
          (parseStringBody r2).map (fun p => (Char.ofNat 9 :: p.1, p.2))
        else if e.toNat = 98 then
          (parseStringBody r2).map (fun p => (Char.ofNat 8 :: p.1, p.2))
        else if e.toNat = 102 then
          (parseStringBody r2).map (fun p => (Char.ofNat 12 :: p.1, p.2))
        else if e.toNat = 117 then
          match r2 with
          | a :: b :: c2 :: d :: r3 =>
            match hexVal a, hexVal b, hexVal c2, hexVal d with
            | some x1, some x2, some x3, some x4 =>
              (parseStringBody r3).map
                (fun p => (Char.ofNat (((x1 * 16 + x2) * 16 + x3) * 16 + x4) :: p.1, p.2))
            | _, _, _, _ => none
          | _ => none
        else none
    else if c.toNat < 32 then none
    else (parseStringBody rest).map (fun p => (c :: p.1, p.2))
termination_by s => s.length
decreasing_by all_goals simp_wf <;> omega

mutual

/-- Fueled model of the `json.loads` value scanner (restricted to the
grammar `json.dumps` emits for the modelled `Json` values: no floats,
no exponents). -/
def parseVal : Nat → List Char → Option (Json × List Char)
  | 0, _ => none
  | fuel + 1, s =>
    match skipWs s with
    | [] => none
    | c :: rest =>
      if c.toNat = 110 then
        match rest with
        | u :: l1 :: l2 :: r =>
          if u.toNat = 117 ∧ l1.toNat = 108 ∧ l2.toNat = 108 then some (.null, r) else none
        | _ => none
      else if c.toNat = 116 then
        match rest with
        | u :: l1 :: l2 :: r =>
          if u.toNat = 114 ∧ l1.toNat = 117 ∧ l2.toNat = 101 then
            some (.bool true, r)
          else none
        | _ => none
      else if c.toNat = 102 then
        match rest with
        | u :: l1 :: l2 :: l3 :: r =>
          if u.toNat = 97 ∧ l1.toNat = 108 ∧ l2.toNat = 115 ∧ l3.toNat = 101 then
            some (.bool false, r)
          else none
        | _ => none
      else if c.toNat = 34 then
        (parseStringBody rest).map (fun p => (.str p.1, p.2))
      else if c.toNat = 91 then
        match skipWs rest with
        | [] => none
        | d :: r3 =>
          if d.toNat = 93 then some (.arr [], r3)
          else (parseElems fuel (d :: r3)).map (fun p => (.arr p.1, p.2))
      else if c.toNat = 123 then
        match skipWs rest with
        | [] => none
        | d :: r3 =>
          if d.toNat = 125 then some (.obj [], r3)
          else (parseFields fuel (d :: r3)).map (fun p => (.obj p.1, p.2))
      else if c.toNat = 45 then
        let p := takeDigits rest
        if p.1 = [] then none
        else some (.num (-(digitsToNat p.1 : Int)), p.2)
      else if isDigitChar c then
        let p := takeDigits rest
        some (.num (digitsToNat (c :: p.1) : Int), p.2)
      else none

def parseElems : Nat → List Char → Option (List Json × List Char)
  | 0, _ => none
  | fuel + 1, s =>
    match parseVal fuel s with
    | none => none
    | some (v, r1) =>
      match skipWs r1 with
      | [] => none
      | d :: r2 =>
        if d.toNat = 44 then
          match parseElems fuel (skipWs r2) with
          | none => none
          | some (vs, r3) => some (v :: vs, r3)
        else if d.toNat = 93 then some ([v], r2)
        else none

def parseFields : Nat → List Char → Option (List (List Char × Json) × List Char)
  | 0, _ => none
  | fuel + 1, s =>
    match s with
    | [] => none
    | c :: r1 =>
      if c.toNat = 34 then
        match parseStringBody r1 with
        | none => none
        | some (k, r2) =>
          match skipWs r2 with
          | [] => none
          | d :: r3 =>
            if d.toNat = 58 then
              match parseVal fuel r3 with
              | none => none
              | some (v, r4) =>
                match skipWs r4 with
                | [] => none
                | e :: r5 =>
                  if e.toNat = 44 then
                    match parseFields fuel (skipWs r5) with
                    | none => none
                    | some (fs, r6) => some ((k, v) :: fs, r6)
                  else if e.toNat = 125 then some ([(k, v)], r5)
                  else none
            else none
      else none

end

/-- Model of `json.loads`: parse one value, require the remainder to be
whitespace only. -/
def loads (s : List Char) : Option Json :=
  match parseVal (s.length + 1) s with
  | some (v, rest) => if skipWs rest = [] then some v else none
  | none => none

/-!
### INI store

`ini_manager.py` reads and writes the shared INI file through the
helpers `safe_read_config` / `atomic_write` / `file_lock` of
`aicostmanager.utils.ini_utils`, whose source is not part of the
snapshot.  Modelled from the spec: section 4.1 specifies a
cross-process-safe keyed store with atomic replace where readers
observe a fully-written prior version, so the file layer is an exact
in-memory map from sections to option/value lists.
-/

structure IniFile where
  sections : List (String × List (String × List Char))
deriving DecidableEq

/-- configparser section lookup (section names are unique keys). -/
def lookupSections : List (String × List (String × List Char)) → String →
    Option (List (String × List Char))
  | [], _ => none
  | (s2, opts) :: rest, s => if s2 == s then some opts else lookupSections rest s

/-- configparser option lookup within a section. -/
def lookupOpts : List (String × List Char) → String → Option (List Char)
  | [], _ => none
  | (k2, v) :: rest, k => if k2 == k then some v else lookupOpts rest k

/-- Model of IniManager.get_option: re-read the file, return the option
value when the section and option exist. -/
def getOption (ini : IniFile) (s k : String) : Option (List Char) :=
  match lookupSections ini.sections s with
  | none => none
  | some opts => lookupOpts opts k

/-- configparser assignment semantics: replace the option in place when
present, append it otherwise. -/
def setSectionOption (opts : List (String × List Char)) (k : String) (v : List Char) :
    List (String × List Char) :=
  match opts with
  | [] => [(k, v)]
  | (k2, v2) :: rest =>
    if k2 == k then (k, v) :: rest else (k2, v2) :: setSectionOption rest k v

/-- Update the named section in place; a missing section is created at
the end of the file (configparser `add_section`). -/
def setSections : List (String × List (String × List Char)) → String → String →
    List Char → List (String × List (String × List Char))
  | [], s, k, v => [(s, [(k, v)])]
  | (s2, opts) :: rest, s, k, v =>
    if s2 == s then (s2, setSectionOption opts k v) :: rest
    else (s2, opts) :: setSections rest s k v

/-- Model of IniManager.set_option: read the file, add the section when
missing, set the option, write the whole config back atomically. -/
def setOption (ini : IniFile) (s k : String) (v : List Char) : IniFile :=
  ⟨setSections ini.sections s k v⟩

/-- Model of IniManager.write_triggered_limits: remove any existing
`triggered_limits` section, add a fresh one (configparser appends it at
the end), and store `json.dumps(data or {})` under `payload`.  On dict
arguments `data or {}` is the identity (the only falsy dict is `{}`,
which maps to itself). -/
def writeTriggeredLimits (ini : IniFile) (data : Json) : IniFile :=
  ⟨ini.sections.filter (fun p => !(p.1 == "triggered_limits")) ++
    [("triggered_limits", [("payload", dumpsVal data)])]⟩

/-- Model of IniManager.read_triggered_limits: re-read the file; when
the section or option is missing return `{}`; otherwise
`json.loads(payload)` (a parse failure propagates, modelled as `none`). -/
def readTriggeredLimits (ini : IniFile) : Option Json :=
  match getOption ini "triggered_limits" "payload" with
  | none => some (Json.obj [])
  | some payload => loads payload

/-!
### Triggered limits cache and query (config_manager.py)
-/

/-- One event of the decoded `triggered_limits` claim list, with the
fields `CostManagerConfig.get_triggered_limits` reads.  `amount` is the
decimal amount at integer precision (informational: no claim consults
it). -/
structure TLEvent where
  event_id : Option String
  limit_id : Option String
  threshold_type : Option String
  amount : Int
  period : Option String
  vendor_name : Option String
  vendor_config_ids : Option (List String)
  vendor_hostname : Option String
  service_key : Option String
  service_id : Option String
  client_customer_key : Option String
  api_key_id : Option String
  triggered_at : Option String
  expires_at : Option String
deriving DecidableEq

/-- The TriggeredLimit dataclass of config_manager.py. -/
structure TriggeredLimit where
  event_id : Option String
  limit_id : Option String
  threshold_type : Option String
  amount : Int
  period : Option String
  config_id_list : Option (List String)
  hostname : Option String
  service_id : Option String
  client_customer_key : Option String
  api_key_id : Option String
  triggered_at : Option String
  expires_at : Option String
deriving DecidableEq

/-- Python truthiness of an optional string: `None` and `""` are falsy. -/
def truthyStr : Option String → Bool
  | none => false
  | some s => !(s == "")

/-- Python `a or b` on optional strings. -/
def orStr (a b : Option String) : Option String :=
  if truthyStr a then a else b

/-- `s.split("::", 1)` guarded by `"::" in s`: split at the first
occurrence of `"::"`, `none` when there is none. -/
def splitOnColons : List Char → Option (List Char × List Char)
  | [] => none
  | c :: rest =>
    if c.toNat = 58 then
      match rest with
      | c2 :: r2 =>
        if c2.toNat = 58 then some ([], r2)
        else (splitOnColons rest).map (fun p => (c :: p.1, p.2))
      | [] => none
    else (splitOnColons rest).map (fun p => (c :: p.1, p.2))

def splitServiceKey (s : String) : Option (String × String) :=
  (splitOnColons s.toList).map (fun p => (String.mk p.1, String.mk p.2))

/-- The legacy `service_key` split performed per event inside
`get_triggered_limits`. -/
def legacySplit (e : TLEvent) : Option String × Option String :=
  match e.service_key with
  | some sk =>
    match splitServiceKey sk with
    | some (v, sid) => (some v, some sid)
    | none => (none, none)
  | none => (none, none)

/-- The `matches_service` expression of `get_triggered_limits`. -/
def matchesService (e : TLEvent) (service_id service_vendor : Option String) : Bool :=
  let lv := (legacySplit e).1
  let lsid := (legacySplit e).2
  if truthyStr service_id || truthyStr service_vendor then
    (truthyStr service_id && (e.service_id == service_id || lsid == service_id)) ||
      (truthyStr service_vendor && (e.vendor_name == service_vendor || lv == service_vendor))
  else true

/-- The `matches_client` expression of `get_triggered_limits`. -/
def matchesClient (e : TLEvent) (cck : Option String) : Bool :=
  if truthyStr cck then e.client_customer_key == cck else true

/-- The TriggeredLimit record built for a matching event. -/
def toTriggeredLimit (e : TLEvent) : TriggeredLimit :=
  { event_id := e.event_id
    limit_id := e.limit_id
    threshold_type := e.threshold_type
    amount := e.amount
    period := e.period
    config_id_list := e.vendor_config_ids
    hostname := e.vendor_hostname
    service_id := orStr e.service_id (legacySplit e).2
    client_customer_key := e.client_customer_key
    api_key_id := e.api_key_id
    triggered_at := e.triggered_at
    expires_at := e.expires_at }

/-- Model of CostManagerConfig.get_triggered_limits (the filtering over
the decoded claim list; the JWT envelope verification is performed by
the external PyJWT library, so the decoded `triggered_limits` claim
list is the `events` argument). -/
def getTriggeredLimits (events : List TLEvent)
    (service_id service_vendor cck : Option String) : List TriggeredLimit :=
  (events.filter (fun e =>
    matchesService e service_id service_vendor && matchesClient e cck)).map toTriggeredLimit

/-!
### Delivery base class (delivery/base.py) and the tracker facade
-/

/-- The usage record assembled by Tracker._build_record; exactly the
keys the Python dict carries, with optional keys as `Option`. -/
structure Record where
  api_id : String
  response_id : String
  timestamp : List Char
  payload : Json
  service_key : Option String
  client_customer_key : Option String
  context : Option Json

/-- The `limits` local of Delivery._check_triggered_limits after the
api-key filter: parse the record's service key (`vendor::service_id`,
falling back to a bare service id; an empty or missing key matches
everything), query the cached limits, then keep only limits tied to the
delivery's api key when one is configured. -/
def matchedLimits (events : List TLEvent) (apiKey : Option String)
    (payload : Record) : List TriggeredLimit :=
  let vs : Option String × Option String :=
    match payload.service_key with
    | none => (none, none)
    | some s =>
      if s == "" then (none, none)
      else
        match splitServiceKey s with
        | some (v, sid) => (some v, some sid)
        | none => (none, some s)
  let limits := getTriggeredLimits events vs.2 vs.1 payload.client_customer_key
  match apiKey with
  | some k => if k == "" then limits else limits.filter (fun l => l.api_key_id == some k)
  | none => limits

/-- Model of Delivery._check_triggered_limits: raise UsageLimitExceeded
(`some limits`) when any matching limit remains. -/
def checkTriggeredLimits (events : List TLEvent) (apiKey : Option String)
    (payload : Record) : Option (List TriggeredLimit) :=
  let limits2 := matchedLimits events apiKey payload
  if limits2.isEmpty then none else some limits2

/-- Replace an event's threshold_type (used to state that the check
never consults it). -/
def setThresholdType (t : Option String) (e : TLEvent) : TLEvent :=
  { e with threshold_type := t }

/-- Model of Delivery.enqueue (delivery/base.py lines 136-140): the
strategy `_enqueue` (buffer append) runs first, then the
triggered-limits check; a `some` second component is the raised
UsageLimitExceeded propagating to the caller after the record was
already buffered. -/
def Delivery_enqueue (events : List TLEvent) (apiKey : Option String)
    (queue : List Record) (payload : Record) :
    List Record × Option (List TriggeredLimit) :=
  let queue2 := queue ++ [payload]
  (queue2, checkTriggeredLimits events apiKey payload)

/-!
### Record assembly (tracker.py Tracker._build_record)
-/

/-- A Python `datetime`: `utc` is whether `tzinfo` is `timezone.utc`
(`false` models a naive datetime). -/
structure PyDateTime where
  year : Nat
  month : Nat
  day : Nat
  hour : Nat
  minute : Nat
  second : Nat
  microsecond : Nat
  utc : Bool
deriving DecidableEq

def padLeftZeros (w : Nat) (n : Nat) : List Char :=
  let ds := natToChars n
  List.replicate (w - ds.length) '0' ++ ds

/-- Model of `datetime.isoformat()`: the fractional part appears only
when `microsecond` is nonzero, and a UTC-aware datetime is suffixed
with `+00:00` (never `Z`). -/
def isoformat (d : PyDateTime) : List Char :=
  padLeftZeros 4 d.year ++ '-' :: padLeftZeros 2 d.month ++ '-' :: padLeftZeros 2 d.day ++
    'T' :: padLeftZeros 2 d.hour ++ ':' :: padLeftZeros 2 d.minute ++
    ':' :: padLeftZeros 2 d.second ++
    (if d.microsecond = 0 then [] else '.' :: padLeftZeros 6 d.microsecond) ++
    (if d.utc then ['+', '0', '0', ':', '0', '0'] else [])

/-- The `timestamp` argument of Tracker.track: a datetime, a string, or
absent. -/
inductive TsArg where
  | dt (d : PyDateTime)
  | strTs (s : List Char)
  | noneTs
deriving DecidableEq

/-- The timestamp expression of Tracker._build_record:
`timestamp.isoformat() if isinstance(timestamp, datetime) else
timestamp or datetime.now(timezone.utc).isoformat()`; note that an
empty string is falsy and falls back to now. -/
def buildTimestamp (ts : TsArg) (now : PyDateTime) : List Char :=
  match ts with
  | .dt d => isoformat d
  | .strTs s => if s = [] then isoformat now else s
  | .noneTs => isoformat now

/-- Model of Tracker._build_record.  `gen` is the `uuid4().hex` value
generated for this call and `now` the current UTC time; optional keys
are included only when the argument is not None. -/
def buildRecord (api_id : String) (system_key : Option String) (usage : Json)
    (response_id : Option String) (timestamp : TsArg)
    (client_customer_key : Option String) (ctx : Option Json)
    (gen : String) (now : PyDateTime) : Record :=
  { api_id := api_id
    response_id :=
      match response_id with
      | some r => if r == "" then gen else r
      | none => gen
    timestamp := buildTimestamp timestamp now
    payload := usage
    service_key := system_key
    client_customer_key := client_customer_key
    context := ctx }

/-- Model of Tracker.track: build the record, hand it to
Delivery.enqueue, return the new queue, the raised exception if any,
and the returned response_id. -/
def Tracker_track (events : List TLEvent) (apiKey : Option String)
    (queue : List Record) (api_id : String) (system_key : Option String)
    (usage : Json) (response_id : Option String) (timestamp : TsArg)
    (client_customer_key : Option String) (ctx : Option Json)
    (gen : String) (now : PyDateTime) :
    List Record × Option (List TriggeredLimit) × String :=
  let record := buildRecord api_id system_key usage response_id timestamp
    client_customer_key ctx gen now
  let r := Delivery_enqueue events apiKey queue record
  (r.1, r.2, record.response_id)

/-!
### HTTP dispatcher retry policy (tenacity loops)
-/

/-- The ways one POST attempt can fail. -/
inductive PostFailure where
  | network
  | timeout
  | httpStatus (code : Nat)
deriving DecidableEq

/-- The `_retryable` predicate shared by Delivery._post_with_retry,
ImmediateDelivery.enqueue and the PersistentDelivery worker: an
HTTPStatusError retries only when the status is >= 500, every other
exception retries. -/
def retryableShared : PostFailure → Bool
  | .network => true
  | .timeout => true
  | .httpStatus code => decide (500 ≤ code)

/-- The tenacity default retry predicate, in effect in
MemQueueDelivery._send_batch which builds its `Retrying` without a
`retry=` argument: retry on every exception. -/
def retryableMemQueue : PostFailure → Bool := fun _ => true

/-- Outcome of a tenacity `Retrying` loop. -/
inductive RetryResult where
  | success (attempts : Nat)
  | raised (e : PostFailure) (attempts : Nat)
  | exhausted (e : PostFailure) (attempts : Nat)
deriving DecidableEq

/-- Model of `Retrying(stop=stop_after_attempt(...), retry=...)` around
one POST: `outcomes i` is what attempt `i` does (`none` = 2xx, `some e`
= raises `e`), `i` the current attempt index, `budget` the attempts
still allowed.  A non-retryable exception is re-raised at once
(`raised`); running out of attempts raises RetryError (`exhausted`).
The `budget = 0` base case is unreachable: callers pass
`stop_after_attempt` bounds >= 1. -/
def runRetry (retryable : PostFailure → Bool) (outcomes : Nat → Option PostFailure) :
    Nat → Nat → RetryResult
  | _, 0 => .exhausted .network 0
  | i, budget + 1 =>
    match outcomes i with
    | none => .success (i + 1)
    | some e =>
      if retryable e then
        if budget = 0 then .exhausted e (i + 1)
        else runRetry retryable outcomes (i + 1) budget
      else .raised e (i + 1)

/-!
### Persistent queue (delivery/persistent.py)
-/

/-- One row of the SQLite `queue` table.  The payload column stores the
JSON-encoded record; the model keeps the decoded record (the worker
round-trips it through `json.dumps`/`json.loads` unchanged). -/
structure QRow where
  id : Nat
  payload : Record
  status : String
  retry_count : Nat
  scheduled_at : Nat
  created_at : Nat
  updated_at : Nat

/-- AUTOINCREMENT: fresh ids are strictly larger than every existing id. -/
def nextRowId (table : List QRow) : Nat :=
  (table.foldl (fun m r => max m r.id) 0) + 1

/-- Model of PersistentDelivery.enqueue: INSERT a fresh 'queued' row. -/
def persistentEnqueue (table : List QRow) (record : Record) (now : Nat) : List QRow :=
  table ++ [{ id := nextRowId table, payload := record, status := "queued",
              retry_count := 0, scheduled_at := now, created_at := now,
              updated_at := now }]

/-- The SELECT of PersistentDelivery._get_batch:
`status='queued' AND scheduled_at <= now ORDER BY id LIMIT limit`; the
table is kept in id order, so filter + take models the query. -/
def pickRows (table : List QRow) (now : Nat) (limit : Nat) : List QRow :=
  (table.filter (fun r => r.status == "queued" && decide (r.scheduled_at ≤ now))).take limit

/-- The UPDATE flipping picked rows to 'processing'. -/
def markProcessing (table : List QRow) (ids : List Nat) (now : Nat) : List QRow :=
  table.map (fun r =>
    if ids.contains r.id then { r with status := "processing", updated_at := now } else r)

/-- Model of PersistentDelivery._reschedule: at `retry_count >=
max_retries` the row becomes terminal 'failed'; otherwise it returns to
'queued' with `scheduled_at = now + min(2 ** retry_count, 300)`. -/
def reschedule (maxRetries : Nat) (now : Nat) (rowId : Nat) (retryCount : Nat)
    (table : List QRow) : List QRow :=
  let st := if maxRetries ≤ retryCount then "failed" else "queued"
  let sched := if maxRetries ≤ retryCount then now else now + min (2 ^ retryCount) 300
  table.map (fun r =>
    if r.id = rowId then
      { r with status := st, retry_count := retryCount, scheduled_at := sched,
               updated_at := now }
    else r)

/-- The per-id DELETE executed on the 2xx path of the worker. -/
def deleteRows (table : List QRow) (ids : List Nat) : List QRow :=
  table.filter (fun r => !(ids.contains r.id))

/-- One iteration of PersistentDelivery._run_worker with a nonempty
batch.  `postOk` is whether the POST retry loop ended in 2xx;
`respTriggeredLimits` is the `triggered_limits` field of the server
response body, which this worker never reads (it is a parameter of the
model precisely to state that fact).  On success the picked rows are
deleted; on failure each picked row is rescheduled with
`retry_count + 1`.  The INI file is returned unchanged in both
branches, as in the source. -/
def runWorkerOnce (maxRetries : Nat) (now : Nat) (limit : Nat)
    (postOk : Bool) (respTriggeredLimits : Option Json)
    (table : List QRow) (ini : IniFile) : List QRow × IniFile :=
  let rows := pickRows table now limit
  let marked := markProcessing table (rows.map (fun r => r.id)) now
  if postOk then
    (deleteRows marked (rows.map (fun r => r.id)), ini)
  else
    (rows.foldl (fun t r => reschedule maxRetries now r.id (r.retry_count + 1) t) marked, ini)

/-!
### Streaming wrapper (tracker.py Tracker.track_llm_stream_usage)
-/

/-- Model of the generator loop of Tracker.track_llm_stream_usage.
`extractUsage` models `get_streaming_usage_from_response(chunk,
api_id)` followed by the `isinstance(usage, dict) and usage` guard
(`some u` iff a non-empty usage dict was extracted); the Bool is the
`usage_sent` flag.  Returns the yielded events and the usages passed to
`track`, in order. -/
def trackStreamGo (extractUsage : α → Option Json) : List α → Bool → List α × List Json
  | [], _ => ([], [])
  | chunk :: rest, usageSent =>
    if usageSent then
      let p := trackStreamGo extractUsage rest true
      (chunk :: p.1, p.2)
    else
      match extractUsage chunk with
      | some u =>
        let p := trackStreamGo extractUsage rest true
        (chunk :: p.1, u :: p.2)
      | none =>
        let p := trackStreamGo extractUsage rest false
        (chunk :: p.1, p.2)

def trackStream (extractUsage : α → Option Json) (stream : List α) : List α × List Json :=
  trackStreamGo extractUsage stream false

/-!
### Tracker construction (tracker.py Tracker.__init__, C10)
-/

inductive DeliveryType where
  | immediate
  | mem_queue
  | persistent_queue
deriving DecidableEq

/-- The `.value` of the str enum. -/
def DeliveryType.value : DeliveryType → List Char
  | .immediate => "immediate".toList
  | .mem_queue => "mem_queue".toList
  | .persistent_queue => "persistent_queue".toList

/-- `DeliveryType(name)`: `none` models the ValueError on an unknown
name. -/
def DeliveryType.ofName (s : List Char) : Option DeliveryType :=
  if s == "immediate".toList then some .immediate
  else if s == "mem_queue".toList then some .mem_queue
  else if s == "persistent_queue".toList then some .persistent_queue
  else none

/-- The delivery_type resolution of Tracker.__init__: a provided
delivery object wins (its optional `type` attribute, else the
delivery_type argument, else immediate — no Delivery class in the
snapshot sets `type`); otherwise the explicit argument; otherwise a
truthy db_path selects the persistent queue; otherwise the INI value
(default "immediate") is parsed with `DeliveryType(...)`. -/
def resolveDeliveryType (deliveryProvided : Bool)
    (deliveryTypeAttr : Option DeliveryType)
    (deliveryTypeParam : Option DeliveryType) (dbPath : Option (List Char))
    (ini : IniFile) : Option DeliveryType :=
  if deliveryProvided then
    some (deliveryTypeAttr.getD (deliveryTypeParam.getD .immediate))
  else
    match deliveryTypeParam with
    | some t => some t
    | none =>
      let fromIni := DeliveryType.ofName
        ((getOption ini "tracker" "delivery_manager").getD "immediate".toList)
      match dbPath with
      | some p => if p = [] then fromIni else some .persistent_queue
      | none => fromIni

/-- Model of Tracker.__init__'s effect on the INI file: resolve the
delivery type (a failed resolution raises and constructs nothing), then
unconditionally `set_option("tracker", "delivery_manager", value)`. -/
def trackerInit (deliveryProvided : Bool)
    (deliveryTypeAttr : Option DeliveryType)
    (deliveryTypeParam : Option DeliveryType) (dbPath : Option (List Char))
    (ini : IniFile) : Option (IniFile × DeliveryType) :=
  match resolveDeliveryType deliveryProvided deliveryTypeAttr deliveryTypeParam dbPath ini with
  | none => none
  | some dt => some (setOption ini "tracker" "delivery_manager" dt.value, dt)

/-!
### Concrete fixtures used by counterexamples and witnesses
-/

/-- A small usage payload. -/
def usageEx : Json := Json.obj [("total_tokens".toList, Json.num 29)]

/-- A concrete usage record matching `evLimitEx`. -/
def recEx : Record :=
  { api_id := "openai_responses", response_id := "evt1",
    timestamp := "2025-01-01T00:00:00".toList, payload := usageEx,
    service_key := some "openai::gpt-5", client_customer_key := none,
    context := none }

/-- A cached triggered-limit event with threshold_type "limit". -/
def evLimitEx : TLEvent :=
  { event_id := some "e1", limit_id := some "l1", threshold_type := some "limit",
    amount := 1, period := some "day", vendor_name := some "openai",
    vendor_config_ids := none, vendor_hostname := none, service_key := none,
    service_id := some "gpt-5", client_customer_key := none,
    api_key_id := some "key1", triggered_at := some "t0", expires_at := none }

/-- The same event with threshold_type "alert". -/
def evAlertEx : TLEvent := { evLimitEx with threshold_type := some "alert", event_id := some "e2" }

/-- A concrete UTC instant used where a `now` value is needed. -/
def nowEx : PyDateTime :=
  { year := 2025, month := 1, day := 2, hour := 3, minute := 4, second := 5,
    microsecond := 123456, utc := true }

/-- A server response envelope used by the C2 counterexample. -/
def envC2 : Json := Json.obj [("v".toList, Json.num 1)]

/-- An INI file whose cached envelope is the empty object. -/
def iniC2 : IniFile := ⟨[("triggered_limits", [("payload", dumpsVal (Json.obj []))])]⟩

/-- A queued row due for pickup. -/
def rowC2 : QRow :=
  { id := 1, payload := recEx, status := "queued", retry_count := 0,
    scheduled_at := 0, created_at := 0, updated_at := 0 }

/-- A queued row one failure away from exhausting max_retries = 5. -/
def rowC5 : QRow :=
  { id := 1, payload := recEx, status := "queued", retry_count := 4,
    scheduled_at := 0, created_at := 0, updated_at := 0 }

/-!
## Theorems

### Basic character and digit lemmas
-/

theorem char_eq_of_toNat_eq {a b : Char} (h : a.toNat = b.toNat) : a = b := by
  have := congrArg Char.ofNat h
  simpa [Char.ofNat_toNat] using this

theorem isDigitChar_toNat {c : Char} (h : isDigitChar c = true) :
    48 ≤ c.toNat ∧ c.toNat ≤ 57 := by
  simpa [isDigitChar] using h

theorem digitChar_isDigit (d : Nat) : isDigitChar (digitChar d) = true := by
  unfold digitChar
  split_ifs <;> decide

theorem digitVal_digitChar {d : Nat} (h : d < 10) : digitVal (digitChar d) = d := by
  interval_cases d <;> decide

theorem hexVal_hexDigitChar {d : Nat} (h : d < 16) : hexVal (hexDigitChar d) = some d := by
  interval_cases d <;> decide

theorem natDigits_zero : natDigits 0 = [] := by
  unfold natDigits
  simp

theorem natDigits_succ {n : Nat} (h : n ≠ 0) :
    natDigits n = natDigits (n / 10) ++ [digitChar (n % 10)] := by
  conv_lhs => unfold natDigits
  simp [h]

theorem natDigits_ne_nil {n : Nat} (h : n ≠ 0) : natDigits n ≠ [] := by
  rw [natDigits_succ h]
  simp

theorem natDigits_all_digits (n : Nat) : ∀ c ∈ natDigits n, isDigitChar c = true := by
  induction n using Nat.strong_induction_on with
  | _ n ih =>
    by_cases h : n = 0
    · subst h; rw [natDigits_zero]; intro c hc; simp at hc
    · rw [natDigits_succ h]
      intro c hc
      rcases List.mem_append.mp hc with h1 | h2
      · exact ih (n / 10) (Nat.div_lt_self (Nat.pos_of_ne_zero h) (by omega)) c h1
      · simp at h2
        subst h2
        exact digitChar_isDigit _

theorem natToChars_ne_nil (n : Nat) : natToChars n ≠ [] := by
  unfold natToChars
  split_ifs with h
  · simp
  · exact natDigits_ne_nil h

theorem natToChars_all_digits (n : Nat) : ∀ c ∈ natToChars n, isDigitChar c = true := by
  unfold natToChars
  split_ifs with h
  · intro c hc; simp at hc; subst hc; decide
  · exact natDigits_all_digits n

theorem digitsToNat_nil : digitsToNat [] = 0 := rfl

theorem digitsToNat_append_digit (xs : List Char) (c : Char) :
    digitsToNat (xs ++ [c]) = digitsToNat xs * 10 + digitVal c := by
  unfold digitsToNat
  rw [List.foldl_append]
  rfl

theorem digitsToNat_natDigits (n : Nat) : digitsToNat (natDigits n) = n := by
  induction n using Nat.strong_induction_on with
  | _ n ih =>
    by_cases h : n = 0
    · subst h; rw [natDigits_zero]; rfl
    · rw [natDigits_succ h, digitsToNat_append_digit,
        ih (n / 10) (Nat.div_lt_self (Nat.pos_of_ne_zero h) (by omega)),
        digitVal_digitChar (Nat.mod_lt n (by omega))]
      omega

theorem digitsToNat_natToChars (n : Nat) : digitsToNat (natToChars n) = n := by
  unfold natToChars
  split_ifs with h
  · subst h; decide
  · exact digitsToNat_natDigits n

theorem takeDigits_append {ds rest : List Char}
    (hds : ∀ c ∈ ds, isDigitChar c = true) (hrest : startsDigit rest = false) :
    takeDigits (ds ++ rest) = (ds, rest) := by
  induction ds with
  | nil =>
    simp only [List.nil_append]
    cases rest with
    | nil => rfl
    | cons c r =>
      unfold takeDigits
      simp only [startsDigit] at hrest
      simp [hrest]
  | cons c ds ih =>
    have hc := hds c (by simp)
    have hds2 : ∀ x ∈ ds, isDigitChar x = true := fun x hx => hds x (by simp [hx])
    unfold takeDigits
    simp [hc, ih hds2]

theorem skipWs_cons_not_ws {c : Char} {l : List Char} (h : isWsChar c = false) :
    skipWs (c :: l) = c :: l := by
  unfold skipWs
  simp [h]

theorem skipWs_cons_ws {c : Char} {l : List Char} (h : isWsChar c = true) :
    skipWs (c :: l) = skipWs l := by
  conv_lhs => unfold skipWs
  simp [h]

theorem not_ws_of_digit {c : Char} (h : isDigitChar c = true) : isWsChar c = false := by
  have := isDigitChar_toNat h
  simp only [isWsChar, Bool.or_eq_false_iff, decide_eq_false_iff_not]
  omega

@[simp] theorem qChar_toNat : qChar.toNat = 34 := by decide

@[simp] theorem bsChar_toNat : bsChar.toNat = 92 := by decide

@[simp] theorem lbChar_toNat : lbChar.toNat = 123 := by decide

@[simp] theorem rbChar_toNat : rbChar.toNat = 125 := by decide

/-!
### Unfolding equations for the mutually recursive functions
-/

@[simp] theorem dumpsVal_null : dumpsVal .null = ['n', 'u', 'l', 'l'] := by
  rw [dumpsVal.eq_def]
  rfl

@[simp] theorem dumpsVal_true : dumpsVal (.bool true) = ['t', 'r', 'u', 'e'] := by
  rw [dumpsVal.eq_def]
  rfl

@[simp] theorem dumpsVal_false : dumpsVal (.bool false) = ['f', 'a', 'l', 's', 'e'] := by
  rw [dumpsVal.eq_def]
  rfl

@[simp] theorem dumpsVal_num (n : Int) : dumpsVal (.num n) = intToChars n := by
  rw [dumpsVal.eq_def]

@[simp] theorem dumpsVal_str (s : List Char) :
    dumpsVal (.str s) = qChar :: escapeChars s ++ [qChar] := by
  rw [dumpsVal.eq_def]

@[simp] theorem dumpsVal_arr_nil : dumpsVal (.arr []) = ['[', ']'] := by
  rw [dumpsVal.eq_def]

@[simp] theorem dumpsVal_arr_cons (x : Json) (xs : List Json) :
    dumpsVal (.arr (x :: xs)) = '[' :: dumpsElems x xs ++ [']'] := by
  rw [dumpsVal.eq_def]

@[simp] theorem dumpsVal_obj_nil : dumpsVal (.obj []) = [lbChar, rbChar] := by
  rw [dumpsVal.eq_def]

@[simp] theorem dumpsVal_obj_cons (k : List Char) (v : Json) (fs : List (List Char × Json)) :
    dumpsVal (.obj ((k, v) :: fs)) = lbChar :: dumpsFields k v fs ++ [rbChar] := by
  rw [dumpsVal.eq_def]

@[simp] theorem dumpsElems_nil (x : Json) : dumpsElems x [] = dumpsVal x := by
  rw [dumpsElems.eq_def]

@[simp] theorem dumpsElems_cons (x y : Json) (ys : List Json) :
    dumpsElems x (y :: ys) = dumpsVal x ++ ',' :: ' ' :: dumpsElems y ys := by
  rw [dumpsElems.eq_def]

@[simp] theorem dumpsFields_nil (k : List Char) (v : Json) :
    dumpsFields k v [] = qChar :: escapeChars k ++ qChar :: ':' :: ' ' :: dumpsVal v := by
  rw [dumpsFields.eq_def]

@[simp] theorem dumpsFields_cons (k : List Char) (v : Json) (k2 : List Char) (v2 : Json)
    (gs : List (List Char × Json)) :
    dumpsFields k v ((k2, v2) :: gs) =
      (qChar :: escapeChars k ++ qChar :: ':' :: ' ' :: dumpsVal v) ++
        ',' :: ' ' :: dumpsFields k2 v2 gs := by
  rw [dumpsFields.eq_def]

@[simp] theorem sizeV_null : sizeV .null = 1 := by rw [sizeV.eq_def]

@[simp] theorem sizeV_bool (b : Bool) : sizeV (.bool b) = 1 := by
  rw [sizeV.eq_def]

@[simp] theorem sizeV_num (n : Int) : sizeV (.num n) = 1 := by rw [sizeV.eq_def]

@[simp] theorem sizeV_str (s : List Char) : sizeV (.str s) = 1 := by rw [sizeV.eq_def]

@[simp] theorem sizeV_arr (xs : List Json) : sizeV (.arr xs) = 1 + sizeL xs := by
  rw [sizeV.eq_def]

@[simp] theorem sizeV_obj (fs : List (List Char × Json)) : sizeV (.obj fs) = 1 + sizeF fs := by
  rw [sizeV.eq_def]

@[simp] theorem sizeL_nil : sizeL [] = 0 := by rw [sizeL.eq_def]

@[simp] theorem sizeL_cons (x : Json) (xs : List Json) :
    sizeL (x :: xs) = 1 + sizeV x + sizeL xs := by rw [sizeL.eq_def]

@[simp] theorem sizeF_nil : sizeF [] = 0 := by rw [sizeF.eq_def]

@[simp] theorem sizeF_cons (k : List Char) (v : Json) (fs : List (List Char × Json)) :
    sizeF ((k, v) :: fs) = 1 + sizeV v + sizeF fs := by rw [sizeF.eq_def]

@[simp] theorem wfV_null : wfV .null = true := by rw [wfV.eq_def]

@[simp] theorem wfV_bool (b : Bool) : wfV (.bool b) = true := by
  rw [wfV.eq_def]

@[simp] theorem wfV_num (n : Int) : wfV (.num n) = true := by rw [wfV.eq_def]

@[simp] theorem wfV_str (s : List Char) :
    wfV (.str s) = s.all (fun c => c.toNat < 65536) := by rw [wfV.eq_def]

@[simp] theorem wfV_arr (xs : List Json) : wfV (.arr xs) = wfL xs := by rw [wfV.eq_def]

@[simp] theorem wfV_obj (fs : List (List Char × Json)) : wfV (.obj fs) = wfF fs := by
  rw [wfV.eq_def]

@[simp] theorem wfL_nil : wfL [] = true := by rw [wfL.eq_def]

@[simp] theorem wfL_cons (x : Json) (xs : List Json) :
    wfL (x :: xs) = (wfV x && wfL xs) := by rw [wfL.eq_def]

@[simp] theorem wfF_nil : wfF [] = true := by rw [wfF.eq_def]

@[simp] theorem wfF_cons (k : List Char) (v : Json) (fs : List (List Char × Json)) :
    wfF ((k, v) :: fs) =
      (k.all (fun c => c.toNat < 65536) && wfV v && wfF fs) := by
  rw [wfF.eq_def]

/-!
### String escape round trip
-/

theorem parseStringBody_escape : ∀ (s rest : List Char),
    (∀ c ∈ s, c.toNat < 65536) →
    parseStringBody (escapeChars s ++ qChar :: rest) = some (s, rest) := by
  intro s
  induction s with
  | nil =>
    intro rest _
    show parseStringBody (escapeChars [] ++ qChar :: rest) = _
    rw [show escapeChars [] = [] from rfl, List.nil_append, parseStringBody.eq_def]
    simp
  | cons c s ih =>
    intro rest hbmp
    have hc : c.toNat < 65536 := hbmp c (by simp)
    have hs : ∀ x ∈ s, x.toNat < 65536 := fun x hx => hbmp x (by simp [hx])
    have hrec := ih rest hs
    show parseStringBody (escapeChars (c :: s) ++ qChar :: rest) = _
    rw [show escapeChars (c :: s) = escapeChar c ++ escapeChars s from rfl,
      List.append_assoc]
    unfold escapeChar
    split_ifs with h1 h2 h3 h4 h5 h6 h7 h8 h9
    · have hq : qChar = c := char_eq_of_toNat_eq (by rw [qChar_toNat, h1])
      subst hq
      simp only [List.cons_append, List.nil_append]
      rw [parseStringBody.eq_def]
      simp [hrec]
    · have hb : bsChar = c := char_eq_of_toNat_eq (by rw [bsChar_toNat, h2])
      subst hb
      simp only [List.cons_append, List.nil_append]
      rw [parseStringBody.eq_def]
      simp [hrec]
    · have hn : Char.ofNat 10 = c := by rw [← h3, Char.ofNat_toNat]
      subst hn
      simp only [List.cons_append, List.nil_append]
      rw [parseStringBody.eq_def]
      simp [hrec]
    · have hr : Char.ofNat 13 = c := by rw [← h4, Char.ofNat_toNat]
      subst hr
      simp only [List.cons_append, List.nil_append]
      rw [parseStringBody.eq_def]
      simp [hrec]
    · have ht : Char.ofNat 9 = c := by rw [← h5, Char.ofNat_toNat]
      subst ht
      simp only [List.cons_append, List.nil_append]
      rw [parseStringBody.eq_def]
      simp [hrec]
    · have hb8 : Char.ofNat 8 = c := by rw [← h6, Char.ofNat_toNat]
      subst hb8
      simp only [List.cons_append, List.nil_append]
      rw [parseStringBody.eq_def]
      simp [hrec]
    · have hf : Char.ofNat 12 = c := by rw [← h7, Char.ofNat_toNat]
      subst hf
      simp only [List.cons_append, List.nil_append]
      rw [parseStringBody.eq_def]
      simp [hrec]
    · have hne34 : ¬ c.toNat = 34 := h1
      have hne92 : ¬ c.toNat = 92 := h2
      have hge : 32 ≤ c.toNat := h8.1
      simp only [List.cons_append, List.nil_append]
      rw [parseStringBody.eq_def]
      simp [hne34, hne92, hrec, Nat.not_lt.mpr hge]
    · have e1 : hexVal (hexDigitChar (c.toNat / 4096 % 16)) = some (c.toNat / 4096 % 16) :=
        hexVal_hexDigitChar (by omega)
      have e2 : hexVal (hexDigitChar (c.toNat / 256 % 16)) = some (c.toNat / 256 % 16) :=
        hexVal_hexDigitChar (by omega)
      have e3 : hexVal (hexDigitChar (c.toNat / 16 % 16)) = some (c.toNat / 16 % 16) :=
        hexVal_hexDigitChar (by omega)
      have e4 : hexVal (hexDigitChar (c.toNat % 16)) = some (c.toNat % 16) :=
        hexVal_hexDigitChar (by omega)
      have hnib :
          ((c.toNat / 4096 % 16 * 16 + c.toNat / 256 % 16) * 16 +
            c.toNat / 16 % 16) * 16 + c.toNat % 16 = c.toNat := by
        omega
      simp only [hex4, List.cons_append, List.nil_append]
      rw [parseStringBody.eq_def]
      simp [e1, e2, e3, e4, hrec, hnib, Char.ofNat_toNat]

/-!
### Shape of dumps output
-/

theorem natToChars_head (n : Nat) :
    ∃ c t, natToChars n = c :: t ∧ isDigitChar c = true := by
  cases hnc : natToChars n with
  | nil => exact absurd hnc (natToChars_ne_nil n)
  | cons c t =>
    exact ⟨c, t, rfl, natToChars_all_digits n c (by rw [hnc]; simp)⟩

/-- Every serialized value starts with a non-whitespace character that
is neither a closing bracket nor a closing brace. -/
theorem dumpsVal_head (e : Json) :
    ∃ c t, dumpsVal e = c :: t ∧ isWsChar c = false ∧ c.toNat ≠ 93 ∧ c.toNat ≠ 125 := by
  cases e with
  | null => exact ⟨'n', _, dumpsVal_null, by decide, by decide, by decide⟩
  | bool b =>
    cases b with
    | true => exact ⟨'t', _, dumpsVal_true, by decide, by decide, by decide⟩
    | false => exact ⟨'f', _, dumpsVal_false, by decide, by decide, by decide⟩
  | num n =>
    rw [dumpsVal_num]
    unfold intToChars
    split_ifs with hneg
    · exact ⟨'-', _, rfl, by decide, by decide, by decide⟩
    · obtain ⟨c, t, hct, hd⟩ := natToChars_head n.toNat
      have := isDigitChar_toNat hd
      exact ⟨c, t, hct, not_ws_of_digit hd, by omega, by omega⟩
  | str s =>
    exact ⟨qChar, _, dumpsVal_str s, by decide, by decide, by decide⟩
  | arr xs =>
    cases xs with
    | nil => exact ⟨'[', _, dumpsVal_arr_nil, by decide, by decide, by decide⟩
    | cons x xs => exact ⟨'[', _, dumpsVal_arr_cons x xs, by decide, by decide, by decide⟩
  | obj fs =>
    cases fs with
    | nil => exact ⟨lbChar, _, dumpsVal_obj_nil, by decide, by decide, by decide⟩
    | cons f fs =>
      obtain ⟨k, v⟩ := f
      exact ⟨lbChar, _, dumpsVal_obj_cons k v fs, by decide, by decide, by decide⟩

theorem skipWs_dumps (e : Json) (x : List Char) :
    skipWs (dumpsVal e ++ x) = dumpsVal e ++ x := by
  obtain ⟨c, t, hd, hws, _, _⟩ := dumpsVal_head e
  rw [hd, List.cons_append, skipWs_cons_not_ws hws]

theorem dumpsElems_head (x : Json) (xs : List Json) :
    ∃ c t, dumpsElems x xs = c :: t ∧ isWsChar c = false ∧ c.toNat ≠ 93 ∧ c.toNat ≠ 125 := by
  obtain ⟨c, t, hd, hws, h93, h125⟩ := dumpsVal_head x
  cases xs with
  | nil => exact ⟨c, t, by rw [dumpsElems_nil, hd], hws, h93, h125⟩
  | cons y ys =>
    exact ⟨c, t ++ ',' :: ' ' :: dumpsElems y ys,
      by rw [dumpsElems_cons, hd, List.cons_append], hws, h93, h125⟩

theorem dumpsFields_head (k : List Char) (v : Json) (fs : List (List Char × Json)) :
    ∃ t, dumpsFields k v fs = qChar :: t := by
  cases fs with
  | nil => exact ⟨_, dumpsFields_nil k v⟩
  | cons g gs =>
    obtain ⟨k2, v2⟩ := g
    refine ⟨(escapeChars k ++ qChar :: ':' :: ' ' :: dumpsVal v) ++
      ',' :: ' ' :: dumpsFields k2 v2 gs, ?_⟩
    rw [dumpsFields_cons, List.cons_append]
    simp [List.append_assoc]

theorem sizeV_pos (e : Json) : 1 ≤ sizeV e := by
  cases e with
  | null => simp
  | bool b => simp
  | num n => simp
  | str s => simp
  | arr xs => simp
  | obj fs => simp

theorem parseVal_cons_ws {c : Char} (h : isWsChar c = true) (fuel : Nat) (l : List Char) :
    parseVal fuel (c :: l) = parseVal fuel l := by
  cases fuel with
  | zero => rfl
  | succ fuel =>
    rw [parseVal.eq_def, parseVal.eq_def]
    simp only [skipWs_cons_ws h]

/-!
### The parse/dumps round trip, by induction on parser fuel
-/

theorem parse_dumps_master : ∀ fuel : Nat,
    (∀ e rest, wfV e = true → sizeV e ≤ fuel → startsDigit rest = false →
      parseVal fuel (dumpsVal e ++ rest) = some (e, rest)) ∧
    (∀ x xs rest, wfV x = true → wfL xs = true → sizeL (x :: xs) ≤ fuel →
      parseElems fuel (dumpsElems x xs ++ ']' :: rest) = some (x :: xs, rest)) ∧
    (∀ k v fs rest, k.all (fun c => c.toNat < 65536) = true → wfV v = true →
      wfF fs = true → sizeF ((k, v) :: fs) ≤ fuel →
      parseFields fuel (dumpsFields k v fs ++ rbChar :: rest) = some ((k, v) :: fs, rest)) := by
  intro fuel
  induction fuel with
  | zero =>
    refine ⟨?_, ?_, ?_⟩
    · intro e rest _ hsz _
      exact absurd hsz (by have := sizeV_pos e; omega)
    · intro x xs rest _ _ hsz
      rw [sizeL_cons] at hsz
      exact absurd hsz (by omega)
    · intro k v fs rest _ _ _ hsz
      rw [sizeF_cons] at hsz
      exact absurd hsz (by omega)
  | succ fuel ih =>
    obtain ⟨ihV, ihE, ihF⟩ := ih
    refine ⟨?_, ?_, ?_⟩
    · -- parseVal on a dumped value
      intro e rest hwf hsz hrest
      cases e with
      | null =>
        rw [dumpsVal_null, parseVal.eq_def]
        simp only [List.cons_append, List.nil_append]
        rw [skipWs_cons_not_ws (by decide)]
        simp
      | bool b =>
        cases b with
        | true =>
          rw [dumpsVal_true, parseVal.eq_def]
          simp only [List.cons_append, List.nil_append]
          rw [skipWs_cons_not_ws (by decide)]
          simp
        | false =>
          rw [dumpsVal_false, parseVal.eq_def]
          simp only [List.cons_append, List.nil_append]
          rw [skipWs_cons_not_ws (by decide)]
          simp
      | num n =>
        rw [dumpsVal_num]
        unfold intToChars
        split_ifs with hneg
        · -- negative: minus sign then the digits of |n|
          rw [parseVal.eq_def]
          simp only [List.cons_append]
          rw [skipWs_cons_not_ws (by decide)]
          have htd : takeDigits (natToChars n.natAbs ++ rest) = (natToChars n.natAbs, rest) :=
            takeDigits_append (natToChars_all_digits _) hrest
          have hint : -(↑(digitsToNat (natToChars n.natAbs)) : Int) = n := by
            rw [digitsToNat_natToChars]; omega
          simp [htd, natToChars_ne_nil, hint]
        · -- non-negative: bare digits
          obtain ⟨c, t, hct, hd⟩ := natToChars_head n.toNat
          have hbounds := isDigitChar_toNat hd
          have htdigits : ∀ x ∈ t, isDigitChar x = true := by
            intro x hx
            exact natToChars_all_digits n.toNat x (by rw [hct]; simp [hx])
          rw [hct, parseVal.eq_def]
          simp only [List.cons_append]
          rw [skipWs_cons_not_ws (not_ws_of_digit hd)]
          have h110 : ¬ c.toNat = 110 := by omega
          have h116 : ¬ c.toNat = 116 := by omega
          have h102 : ¬ c.toNat = 102 := by omega
          have h34 : ¬ c.toNat = 34 := by omega
          have h91 : ¬ c.toNat = 91 := by omega
          have h123 : ¬ c.toNat = 123 := by omega
          have h45 : ¬ c.toNat = 45 := by omega
          have htd : takeDigits (t ++ rest) = (t, rest) := takeDigits_append htdigits hrest
          have hnum : (↑(digitsToNat (c :: t)) : Int) = n := by
            rw [← hct, digitsToNat_natToChars]
            omega
          simp [h110, h116, h102, h34, h91, h123, h45, hd, htd, hnum]
      | str s =>
        rw [dumpsVal_str, parseVal.eq_def]
        simp only [List.cons_append, List.append_assoc, List.nil_append]
        rw [skipWs_cons_not_ws (by decide)]
        have hbmp : ∀ c ∈ s, c.toNat < 65536 := by
          rw [wfV_str] at hwf
          simpa using hwf
        simp [parseStringBody_escape s rest hbmp]
      | arr xs =>
        cases xs with
        | nil =>
          rw [dumpsVal_arr_nil, parseVal.eq_def]
          simp only [List.cons_append, List.nil_append]
          rw [skipWs_cons_not_ws (by decide)]
          simp [skipWs_cons_not_ws, isWsChar]
        | cons x xs =>
          rw [dumpsVal_arr_cons, parseVal.eq_def]
          simp only [List.cons_append, List.append_assoc, List.nil_append]
          rw [skipWs_cons_not_ws (by decide)]
          obtain ⟨c, t, hd, hws, h93, _⟩ := dumpsElems_head x xs
          rw [hd, List.cons_append]
          have hskip : skipWs (c :: (t ++ ']' :: rest)) = c :: (t ++ ']' :: rest) :=
            skipWs_cons_not_ws hws
          rw [wfV_arr, wfL_cons, Bool.and_eq_true] at hwf
          have hsz2 : sizeL (x :: xs) ≤ fuel := by
            rw [sizeV_arr] at hsz; omega
          have hrec := ihE x xs rest hwf.1 hwf.2 hsz2
          rw [hd, List.cons_append] at hrec
          simp [hskip, h93, hrec]
      | obj fs =>
        cases fs with
        | nil =>
          rw [dumpsVal_obj_nil, parseVal.eq_def]
          simp only [List.cons_append, List.nil_append]
          rw [skipWs_cons_not_ws (by decide)]
          simp [skipWs_cons_not_ws, isWsChar]
        | cons f fs =>
          obtain ⟨k, v⟩ := f
          rw [dumpsVal_obj_cons, parseVal.eq_def]
          simp only [List.cons_append, List.append_assoc, List.nil_append]
          rw [skipWs_cons_not_ws (by decide)]
          obtain ⟨t, hd⟩ := dumpsFields_head k v fs
          rw [hd, List.cons_append]
          have hskip : skipWs (qChar :: (t ++ rbChar :: rest)) = qChar :: (t ++ rbChar :: rest) :=
            skipWs_cons_not_ws (by decide)
          rw [wfV_obj, wfF_cons, Bool.and_eq_true, Bool.and_eq_true] at hwf
          have hsz2 : sizeF ((k, v) :: fs) ≤ fuel := by
            rw [sizeV_obj] at hsz; omega
          have hrec := ihF k v fs rest hwf.1.1 hwf.1.2 hwf.2 hsz2
          rw [hd, List.cons_append] at hrec
          simp [hskip, hrec]
    · -- parseElems on dumped elements
      intro x xs rest hwx hwxs hsz
      rw [sizeL_cons] at hsz
      cases xs with
      | nil =>
        rw [dumpsElems_nil, parseElems.eq_def]
        have hv := ihV x (']' :: rest) hwx (by omega) (by rfl)
        have hskip : skipWs (']' :: rest) = ']' :: rest := skipWs_cons_not_ws (by decide)
        simp [hv, hskip]
      | cons y ys =>
        rw [dumpsElems_cons, parseElems.eq_def]
        simp only [List.cons_append, List.append_assoc]
        have hv := ihV x (',' :: ' ' :: (dumpsElems y ys ++ ']' :: rest)) hwx
          (by omega) (by rfl)
        have hskip1 : skipWs (',' :: ' ' :: (dumpsElems y ys ++ ']' :: rest)) =
            ',' :: ' ' :: (dumpsElems y ys ++ ']' :: rest) := skipWs_cons_not_ws (by decide)
        have hskip2 : skipWs (' ' :: (dumpsElems y ys ++ ']' :: rest)) =
            dumpsElems y ys ++ ']' :: rest := by
          rw [skipWs_cons_ws (by decide)]
          obtain ⟨c, t, hd, hws, _, _⟩ := dumpsElems_head y ys
          rw [hd, List.cons_append, skipWs_cons_not_ws hws]
        rw [wfL_cons, Bool.and_eq_true] at hwxs
        have hsz2 : sizeL (y :: ys) ≤ fuel := by
          rw [sizeL_cons]
          rw [sizeL_cons] at hsz
          have := sizeV_pos x
          omega
        have hrec := ihE y ys rest hwxs.1 hwxs.2 hsz2
        simp [hv, hskip1, hskip2, hrec]
    · -- parseFields on dumped fields
      intro k v fs rest hk hwv hwfs hsz
      rw [sizeF_cons] at hsz
      have hkbmp : ∀ c ∈ k, c.toNat < 65536 := by simpa using hk
      cases fs with
      | nil =>
        rw [dumpsFields_nil, parseFields.eq_def]
        simp only [List.cons_append, List.append_assoc, List.nil_append]
        have hsb := parseStringBody_escape k (':' :: ' ' :: (dumpsVal v ++ rbChar :: rest)) hkbmp
        have hskip1 : skipWs (':' :: ' ' :: (dumpsVal v ++ rbChar :: rest)) =
            ':' :: ' ' :: (dumpsVal v ++ rbChar :: rest) := skipWs_cons_not_ws (by decide)
        have hv := ihV v (rbChar :: rest) hwv (by omega) (by rfl)
        have hpv : parseVal fuel (' ' :: (dumpsVal v ++ rbChar :: rest)) =
            some (v, rbChar :: rest) := by
          rw [parseVal_cons_ws (by decide)]
          exact hv
        have hskip2 : skipWs (rbChar :: rest) = rbChar :: rest :=
          skipWs_cons_not_ws (by decide)
        simp [hsb, hskip1, hpv, hskip2]
      | cons g gs =>
        obtain ⟨k2, v2⟩ := g
        rw [dumpsFields_cons, parseFields.eq_def]
        simp only [List.cons_append, List.append_assoc, List.nil_append]
        have hsb := parseStringBody_escape k
          (':' :: ' ' :: (dumpsVal v ++ ',' :: ' ' :: (dumpsFields k2 v2 gs ++ rbChar :: rest)))
          hkbmp
        have hskip1 : skipWs (':' :: ' ' ::
              (dumpsVal v ++ ',' :: ' ' :: (dumpsFields k2 v2 gs ++ rbChar :: rest))) =
            ':' :: ' ' ::
              (dumpsVal v ++ ',' :: ' ' :: (dumpsFields k2 v2 gs ++ rbChar :: rest)) :=
          skipWs_cons_not_ws (by decide)
        have hv := ihV v (',' :: ' ' :: (dumpsFields k2 v2 gs ++ rbChar :: rest)) hwv
          (by omega) (by rfl)
        have hpv : parseVal fuel
            (' ' :: (dumpsVal v ++ ',' :: ' ' :: (dumpsFields k2 v2 gs ++ rbChar :: rest))) =
            some (v, ',' :: ' ' :: (dumpsFields k2 v2 gs ++ rbChar :: rest)) := by
          rw [parseVal_cons_ws (by decide)]
          exact hv
        have hskip2 : skipWs (',' :: ' ' :: (dumpsFields k2 v2 gs ++ rbChar :: rest)) =
            ',' :: ' ' :: (dumpsFields k2 v2 gs ++ rbChar :: rest) :=
          skipWs_cons_not_ws (by decide)
        have hskip3 : skipWs (' ' :: (dumpsFields k2 v2 gs ++ rbChar :: rest)) =
            dumpsFields k2 v2 gs ++ rbChar :: rest := by
          rw [skipWs_cons_ws (by decide)]
          obtain ⟨t, hd⟩ := dumpsFields_head k2 v2 gs
          rw [hd, List.cons_append, skipWs_cons_not_ws (by decide)]
        rw [wfF_cons, Bool.and_eq_true, Bool.and_eq_true] at hwfs
        have hsz2 : sizeF ((k2, v2) :: gs) ≤ fuel := by
          rw [sizeF_cons]
          rw [sizeF_cons] at hsz
          have := sizeV_pos v
          omega
        have hrec := ihF k2 v2 gs rest hwfs.1.1 hwfs.1.2 hwfs.2 hsz2
        simp [hsb, hskip1, hpv, hskip2, hskip3, hrec]

/-- The structural size is bounded by the length of the serialization,
so `length + 1` is always enough parser fuel. -/
theorem dumps_length_bound : ∀ n : Nat,
    (∀ e, sizeV e ≤ n → sizeV e ≤ (dumpsVal e).length) ∧
    (∀ x xs, sizeL (x :: xs) ≤ n → sizeL (x :: xs) ≤ (dumpsElems x xs).length + 1) ∧
    (∀ k v fs, sizeF ((k, v) :: fs) ≤ n →
      sizeF ((k, v) :: fs) ≤ (dumpsFields k v fs).length + 1) := by
  intro n
  induction n with
  | zero =>
    refine ⟨?_, ?_, ?_⟩
    · intro e hsz
      exact absurd hsz (by have := sizeV_pos e; omega)
    · intro x xs hsz
      rw [sizeL_cons] at hsz
      exact absurd hsz (by omega)
    · intro k v fs hsz
      rw [sizeF_cons] at hsz
      exact absurd hsz (by omega)
  | succ n ih =>
    obtain ⟨ih1, ih2, ih3⟩ := ih
    refine ⟨?_, ?_, ?_⟩
    · intro e hsz
      cases e with
      | null => simp
      | bool b => cases b <;> simp
      | num m =>
        rw [dumpsVal_num, sizeV_num]
        have := natToChars_ne_nil m.natAbs
        have := natToChars_ne_nil m.toNat
        unfold intToChars
        split_ifs
        · simp
        · cases hnc : natToChars m.toNat with
          | nil => exact absurd hnc (natToChars_ne_nil _)
          | cons c t => simp
      | str s => simp
      | arr xs =>
        cases xs with
        | nil => simp
        | cons x xs =>
          rw [sizeV_arr] at hsz ⊢
          have h2 := ih2 x xs (by omega)
          rw [dumpsVal_arr_cons]
          simp only [List.length_cons, List.length_append]
          omega
      | obj fs =>
        cases fs with
        | nil => simp
        | cons f fs =>
          obtain ⟨k, v⟩ := f
          rw [sizeV_obj] at hsz ⊢
          have h3 := ih3 k v fs (by omega)
          rw [dumpsVal_obj_cons]
          simp only [List.length_cons, List.length_append]
          omega
    · intro x xs hsz
      rw [sizeL_cons] at hsz ⊢
      cases xs with
      | nil =>
        have h1 := ih1 x (by omega)
        rw [dumpsElems_nil]
        simp only [sizeL_nil]
        omega
      | cons y ys =>
        have h1 := ih1 x (by have := sizeV_pos x; rw [sizeL_cons] at hsz; omega)
        have h2 := ih2 y ys (by have := sizeV_pos x; omega)
        rw [dumpsElems_cons]
        simp only [List.length_append, List.length_cons]
        omega
    · intro k v fs hsz
      rw [sizeF_cons] at hsz ⊢
      cases fs with
      | nil =>
        have h1 := ih1 v (by omega)
        rw [dumpsFields_nil]
        simp only [sizeF_nil, List.length_cons, List.length_append]
        omega
      | cons g gs =>
        obtain ⟨k2, v2⟩ := g
        have h1 := ih1 v (by have := sizeV_pos v; rw [sizeF_cons] at hsz; omega)
        have h3 := ih3 k2 v2 gs (by have := sizeV_pos v; omega)
        rw [dumpsFields_cons]
        simp only [List.length_append, List.length_cons]
        omega

theorem sizeV_le_dumps_length (e : Json) : sizeV e ≤ (dumpsVal e).length :=
  (dumps_length_bound (sizeV e)).1 e (le_refl _)

@[simp] theorem lookupSections_nil (s : String) : lookupSections [] s = none := rfl

@[simp] theorem lookupSections_cons (s2 : String) (opts : List (String × List Char))
    (rest : List (String × List (String × List Char))) (s : String) :
    lookupSections ((s2, opts) :: rest) s =
      if s2 == s then some opts else lookupSections rest s := rfl

@[simp] theorem lookupOpts_nil (k : String) : lookupOpts [] k = none := rfl

@[simp] theorem lookupOpts_cons (k2 : String) (v : List Char)
    (rest : List (String × List Char)) (k : String) :
    lookupOpts ((k2, v) :: rest) k = if k2 == k then some v else lookupOpts rest k := rfl

@[simp] theorem setSections_nil (s k : String) (v : List Char) :
    setSections [] s k v = [(s, [(k, v)])] := rfl

@[simp] theorem setSections_cons (s2 : String) (opts : List (String × List Char))
    (rest : List (String × List (String × List Char))) (s k : String) (v : List Char) :
    setSections ((s2, opts) :: rest) s k v =
      if s2 == s then (s2, setSectionOption opts k v) :: rest
      else (s2, opts) :: setSections rest s k v := rfl

@[simp] theorem setSectionOption_nil (k : String) (v : List Char) :
    setSectionOption [] k v = [(k, v)] := rfl

@[simp] theorem setSectionOption_cons (k2 : String) (v2 : List Char)
    (rest : List (String × List Char)) (k : String) (v : List Char) :
    setSectionOption ((k2, v2) :: rest) k v =
      if k2 == k then (k, v) :: rest else (k2, v2) :: setSectionOption rest k v := rfl

theorem lookupSections_append_of_none {l1 l2 : List (String × List (String × List Char))}
    {s : String} (h : lookupSections l1 s = none) :
    lookupSections (l1 ++ l2) s = lookupSections l2 s := by
  induction l1 with
  | nil => simp
  | cons p rest ih =>
    obtain ⟨s2, opts⟩ := p
    rw [lookupSections_cons] at h
    rw [List.cons_append, lookupSections_cons]
    by_cases hs : (s2 == s) = true
    · rw [if_pos hs] at h
      exact absurd h (by simp)
    · rw [if_neg hs] at h ⊢
      exact ih h

theorem lookupSections_filter_self (l : List (String × List (String × List Char)))
    (key : String) :
    lookupSections (l.filter (fun p => !(p.1 == key))) key = none := by
  induction l with
  | nil => simp
  | cons p rest ih =>
    obtain ⟨s2, opts⟩ := p
    by_cases hs : (s2 == key) = true
    · simp only [List.filter_cons]
      rw [show (!(s2, opts).1 == key) = false by simp [hs]]
      exact ih
    · simp only [List.filter_cons]
      rw [show (!(s2, opts).1 == key) = true by
        simp only [Bool.not_eq_true']
        simpa using hs]
      rw [if_pos rfl, lookupSections_cons, if_neg hs]
      exact ih

/-- The round trip through the modelled `json.dumps` / `json.loads`. -/
theorem loads_dumps (e : Json) (h : wfV e = true) : loads (dumpsVal e) = some e := by
  unfold loads
  have hb := sizeV_le_dumps_length e
  have hp := (parse_dumps_master ((dumpsVal e).length + 1)).1 e [] h (by omega) rfl
  rw [List.append_nil] at hp
  rw [hp]
  rfl

/-!
### C9: the limits cache round trip
-/

/-- C9: Round-trip of the limits cache: for every envelope dict `e`
(JSON-shaped, with strings in the Basic Multilingual Plane),
`write_triggered_limits(e)` followed by `read_triggered_limits()`
returns `e` — the stored payload is exactly `json.dumps` of the written
envelope, and `json.loads` recovers it verbatim. -/
theorem C9_triggered_limits_roundtrip (ini : IniFile) (e : Json) (h : wfV e = true) :
    readTriggeredLimits (writeTriggeredLimits ini e) = some e := by
  unfold readTriggeredLimits writeTriggeredLimits getOption
  rw [show (IniFile.mk (ini.sections.filter (fun p => !(p.1 == "triggered_limits")) ++
      [("triggered_limits", [("payload", dumpsVal e)])])).sections =
      ini.sections.filter (fun p => !(p.1 == "triggered_limits")) ++
      [("triggered_limits", [("payload", dumpsVal e)])] from rfl]
  rw [lookupSections_append_of_none (lookupSections_filter_self _ _)]
  simp [loads_dumps e h]

theorem C9_triggered_limits_roundtrip_witness :
    wfV usageEx = true ∧
    readTriggeredLimits (writeTriggeredLimits (IniFile.mk []) usageEx) = some usageEx :=
  ⟨by simp [usageEx],
   C9_triggered_limits_roundtrip (IniFile.mk []) usageEx (by simp [usageEx])⟩

/-!
### INI set/get lemmas (shared by C10)
-/

theorem lookupOpts_setSectionOption_same (opts : List (String × List Char))
    (k : String) (v : List Char) :
    lookupOpts (setSectionOption opts k v) k = some v := by
  induction opts with
  | nil => simp
  | cons p rest ih =>
    obtain ⟨k2, v2⟩ := p
    by_cases hk : (k2 == k) = true
    · simp [hk]
    · simp [hk, ih]

theorem lookupOpts_setSectionOption_other (opts : List (String × List Char))
    (k : String) (v : List Char) (k' : String) (h : k' ≠ k) :
    lookupOpts (setSectionOption opts k v) k' = lookupOpts opts k' := by
  have hkk : (k == k') = false := by
    simp only [beq_eq_false_iff_ne, ne_eq]
    exact fun e => h e.symm
  induction opts with
  | nil => simp [hkk]
  | cons p rest ih =>
    obtain ⟨k2, v2⟩ := p
    by_cases hk : (k2 == k) = true
    · have hk2 : k2 = k := by simpa using hk
      subst hk2
      simp [hkk]
    · simp [hk, ih]

theorem getOption_setOption_same (ini : IniFile) (s k : String) (v : List Char) :
    getOption (setOption ini s k v) s k = some v := by
  unfold getOption setOption
  rw [show (IniFile.mk (setSections ini.sections s k v)).sections =
    setSections ini.sections s k v from rfl]
  induction ini.sections with
  | nil => simp [lookupOpts_setSectionOption_same]
  | cons p rest ih =>
    obtain ⟨s2, opts⟩ := p
    by_cases hs : (s2 == s) = true
    · simp [hs, lookupOpts_setSectionOption_same]
    · simp only [setSections_cons, if_neg hs, lookupSections_cons]
      exact ih

theorem getOption_setOption_frame (ini : IniFile) (s k : String) (v : List Char)
    (s' k' : String) (h : ¬(s' = s ∧ k' = k)) :
    getOption (setOption ini s k v) s' k' = getOption ini s' k' := by
  unfold getOption setOption
  rw [show (IniFile.mk (setSections ini.sections s k v)).sections =
    setSections ini.sections s k v from rfl]
  induction ini.sections with
  | nil =>
    simp only [setSections_nil, lookupSections_cons, lookupSections_nil]
    by_cases hs : (s == s') = true
    · have hss : s' = s := by have := (beq_iff_eq.mp hs).symm; exact this
      have hkk : k' ≠ k := fun hk => h ⟨hss, hk⟩
      rw [if_pos hs]
      simp [show (k == k') = false by
        simp only [beq_eq_false_iff_ne, ne_eq]
        exact fun e => hkk e.symm]
    · rw [if_neg hs]
  | cons p rest ih =>
    obtain ⟨s2, opts⟩ := p
    by_cases hs : (s2 == s) = true
    · have hs2 : s2 = s := by simpa using hs
      subst hs2
      simp only [setSections_cons, if_pos hs, lookupSections_cons]
      by_cases hs' : (s2 == s') = true
      · have hss : s' = s2 := by have := (beq_iff_eq.mp hs').symm; exact this
        have hkk : k' ≠ k := fun hk => h ⟨hss, hk⟩
        rw [if_pos hs', if_pos hs']
        exact lookupOpts_setSectionOption_other opts k v k' hkk
      · rw [if_neg hs', if_neg hs']
    · simp only [setSections_cons, if_neg hs, lookupSections_cons]
      by_cases hs' : (s2 == s') = true
      · rw [if_pos hs', if_pos hs']
      · rw [if_neg hs', if_neg hs']
        exact ih

/-!
### C10: Tracker construction always writes the delivery strategy name
-/

/-- C10: Every successful construction of a Tracker writes the resolved
delivery strategy name to the `[tracker] delivery_manager` key of the
shared INI file, overwriting any existing value there, and modifies no
other section or option of the file. -/
theorem C10_tracker_init_writes_delivery_manager
    (deliveryProvided : Bool) (attr param : Option DeliveryType)
    (dbPath : Option (List Char)) (ini ini' : IniFile) (dt : DeliveryType)
    (h : trackerInit deliveryProvided attr param dbPath ini = some (ini', dt)) :
    getOption ini' "tracker" "delivery_manager" = some dt.value ∧
    ∀ s k : String, ¬(s = "tracker" ∧ k = "delivery_manager") →
      getOption ini' s k = getOption ini s k := by
  unfold trackerInit at h
  cases hres : resolveDeliveryType deliveryProvided attr param dbPath ini with
  | none =>
    rw [hres] at h
    exact absurd h (by simp)
  | some dt2 =>
    rw [hres] at h
    simp only [Option.some.injEq, Prod.mk.injEq] at h
    obtain ⟨hini, hdt⟩ := h
    subst hdt
    rw [← hini]
    exact ⟨getOption_setOption_same ini "tracker" "delivery_manager" (DeliveryType.value dt2),
      fun s k hk => getOption_setOption_frame ini "tracker" "delivery_manager"
        (DeliveryType.value dt2) s k hk⟩

theorem C10_tracker_init_writes_delivery_manager_witness :
    trackerInit false none none none (IniFile.mk []) =
      some (IniFile.mk [("tracker", [("delivery_manager", "immediate".toList)])],
        DeliveryType.immediate) ∧
    getOption (IniFile.mk [("tracker", [("delivery_manager", "immediate".toList)])])
      "tracker" "delivery_manager" = some DeliveryType.immediate.value :=
  ⟨by decide,
   (C10_tracker_init_writes_delivery_manager false none none none (IniFile.mk []) _ _
      (by decide)).1⟩

/-!
### C1: the enqueue-versus-limit-check ordering
-/

/-- C1 counterexample: the claim asserts that a `track` call whose
record matches a cached `limit` threshold does not enqueue and leaves
the queue size unchanged.  On the code, the concrete call below raises
UsageLimitExceeded yet the delivery queue has grown from 0 to 1
records: `Delivery.enqueue` runs the strategy `_enqueue` before
`_check_triggered_limits`. -/
theorem C1_claim_false_on_code :
    (Tracker_track [evLimitEx] (some "key1") [] "openai_responses"
        (some "openai::gpt-5") usageEx (some "evt1")
        (.strTs "2025-01-01T00:00:00".toList) none none "g" nowEx).2.1.isSome = true ∧
    (Tracker_track [evLimitEx] (some "key1") [] "openai_responses"
        (some "openai::gpt-5") usageEx (some "evt1")
        (.strTs "2025-01-01T00:00:00".toList) none none "g" nowEx).1.length = 0 + 1 := by
  constructor
  · decide
  · decide

/-- C1 (amended): for every call to Tracker.track (and thus
Delivery.enqueue) whose record matches a currently-cached triggered
limit with threshold_type "limit", the call raises UsageLimitExceeded —
but the record has already been buffered by the delivery strategy when
the check runs, so the queue grows by exactly that record. -/
theorem C1_enqueue_raises_but_still_buffers
    (events : List TLEvent) (apiKey : Option String) (queue : List Record)
    (api_id : String) (system_key : Option String) (usage : Json)
    (response_id : Option String) (timestamp : TsArg)
    (cck : Option String) (ctx : Option Json) (gen : String) (now : PyDateTime)
    (h : ∃ l ∈ matchedLimits events apiKey
        (buildRecord api_id system_key usage response_id timestamp cck ctx gen now),
      l.threshold_type = some "limit") :
    (Tracker_track events apiKey queue api_id system_key usage response_id
        timestamp cck ctx gen now).2.1.isSome = true ∧
    (Tracker_track events apiKey queue api_id system_key usage response_id
        timestamp cck ctx gen now).1 =
      queue ++ [buildRecord api_id system_key usage response_id timestamp cck ctx gen now] := by
  obtain ⟨l, hl, _⟩ := h
  have hne : (matchedLimits events apiKey
      (buildRecord api_id system_key usage response_id timestamp cck ctx gen now)).isEmpty
      = false := by
    cases hm : matchedLimits events apiKey
        (buildRecord api_id system_key usage response_id timestamp cck ctx gen now) with
    | nil => rw [hm] at hl; simp at hl
    | cons a t => simp
  constructor
  · simp [Tracker_track, Delivery_enqueue, checkTriggeredLimits, hne]
  · rfl

theorem C1_enqueue_raises_but_still_buffers_witness :
    (∃ l ∈ matchedLimits [evLimitEx] (some "key1")
        (buildRecord "openai_responses" (some "openai::gpt-5") usageEx (some "evt1")
          (.strTs "2025-01-01T00:00:00".toList) none none "g" nowEx),
      l.threshold_type = some "limit") ∧
    ((Tracker_track [evLimitEx] (some "key1") [] "openai_responses"
        (some "openai::gpt-5") usageEx (some "evt1")
        (.strTs "2025-01-01T00:00:00".toList) none none "g" nowEx).2.1.isSome = true ∧
     (Tracker_track [evLimitEx] (some "key1") [] "openai_responses"
        (some "openai::gpt-5") usageEx (some "evt1")
        (.strTs "2025-01-01T00:00:00".toList) none none "g" nowEx).1 =
      [] ++ [buildRecord "openai_responses" (some "openai::gpt-5") usageEx (some "evt1")
        (.strTs "2025-01-01T00:00:00".toList) none none "g" nowEx]) :=
  ⟨by decide,
   C1_enqueue_raises_but_still_buffers [evLimitEx] (some "key1") [] "openai_responses"
     (some "openai::gpt-5") usageEx (some "evt1")
     (.strTs "2025-01-01T00:00:00".toList) none none "g" nowEx (by decide)⟩

/-!
### C3: threshold_type is never consulted by the pre-check
-/

/-- C3 counterexample: the claim asserts that a record matching only
triggered limits with threshold_type "alert" does not raise.  On the
code the concrete call below — whose only cached event is alert-typed —
raises UsageLimitExceeded. -/
theorem C3_claim_false_on_code :
    (Tracker_track [evAlertEx] (some "key1") [] "openai_responses"
        (some "openai::gpt-5") usageEx (some "evt1")
        (.strTs "2025-01-01T00:00:00".toList) none none "g" nowEx).2.1.isSome = true := by
  decide

theorem getTriggeredLimits_map_threshold (events : List TLEvent)
    (a b c : Option String) (t : Option String) :
    getTriggeredLimits (events.map (setThresholdType t)) a b c =
      (getTriggeredLimits events a b c).map
        (fun l => { l with threshold_type := t }) := by
  unfold getTriggeredLimits
  have hpred : ((fun e => matchesService e a b && matchesClient e c) ∘ setThresholdType t) =
      (fun e => matchesService e a b && matchesClient e c) := by
    funext e
    rfl
  have hcomp : (toTriggeredLimit ∘ setThresholdType t) =
      ((fun l => { l with threshold_type := t }) ∘ toTriggeredLimit) := by
    funext e
    rfl
  rw [List.filter_map, hpred, List.map_map, hcomp, ← List.map_map]

/-- C3 (amended): the pre-check never consults threshold_type:
UsageLimitExceeded is raised exactly when the api-key-filtered match
list is non-empty, and rewriting every cached event's threshold_type
(for example to "alert") does not change whether the check raises —
alert thresholds block exactly like limit thresholds. -/
theorem C3_threshold_type_not_consulted
    (events : List TLEvent) (apiKey : Option String) (rec : Record) (t : Option String) :
    ((checkTriggeredLimits events apiKey rec).isSome ↔
      matchedLimits events apiKey rec ≠ []) ∧
    (checkTriggeredLimits (events.map (setThresholdType t)) apiKey rec).isSome =
      (checkTriggeredLimits events apiKey rec).isSome := by
  have hpred2 : ∀ k : String, ((fun l => l.api_key_id == some k) ∘
      (fun l : TriggeredLimit => { l with threshold_type := t })) =
      (fun l : TriggeredLimit => l.api_key_id == some k) := by
    intro k
    funext l
    rfl
  have hmap : matchedLimits (events.map (setThresholdType t)) apiKey rec =
      (matchedLimits events apiKey rec).map
        (fun l => { l with threshold_type := t }) := by
    unfold matchedLimits
    simp only [getTriggeredLimits_map_threshold]
    cases apiKey with
    | none => rfl
    | some k =>
      by_cases hk : (k == "") = true
      · simp only [if_pos hk]
      · simp only [if_neg hk, List.filter_map, hpred2]
  constructor
  · unfold checkTriggeredLimits
    cases hm : matchedLimits events apiKey rec with
    | nil => simp
    | cons a l => simp
  · unfold checkTriggeredLimits
    rw [hmap]
    cases hm : matchedLimits events apiKey rec with
    | nil => simp
    | cons a l => simp

/-!
### C4: retry classification
-/

theorem runRetry_succ (pred : PostFailure → Bool) (outcomes : Nat → Option PostFailure)
    (i budget : Nat) :
    runRetry pred outcomes i (budget + 1) =
      match outcomes i with
      | none => .success (i + 1)
      | some e =>
        if pred e then
          if budget = 0 then .exhausted e (i + 1)
          else runRetry pred outcomes (i + 1) budget
        else .raised e (i + 1) := rfl

/-- C4 counterexample: the claim asserts that for every delivery
strategy a 4xx response is terminal and never retried.
`MemQueueDelivery._send_batch` builds its tenacity loop without a
`retry=` predicate, so a 404 on the first attempt is retried: the loop
below performs a second attempt and succeeds instead of surfacing the
404. -/
theorem C4_claim_false_on_code :
    retryableMemQueue (.httpStatus 404) = true ∧
    runRetry retryableMemQueue (fun i => if i = 0 then some (.httpStatus 404) else none)
      0 5 = .success 2 := by
  constructor
  · rfl
  · decide

/-- C4 (amended): the shared `_retryable` dispatcher predicate (used by
Delivery._post_with_retry, ImmediateDelivery.enqueue and the
PersistentDelivery worker) retries exactly on network errors, timeouts
and HTTP status >= 500; under it any 4xx failure is surfaced
immediately with no further attempt, and a retryable failure with
budget remaining leads to exactly one more round of attempts.
(MemQueueDelivery._send_batch instead retries every failure, as the
counterexample shows.) -/
theorem C4_retry_classification_shared_dispatcher :
    (∀ e, retryableShared e = true ↔
      (e = .network ∨ e = .timeout ∨ ∃ c, 500 ≤ c ∧ e = .httpStatus c)) ∧
    (∀ (outcomes : Nat → Option PostFailure) (i n c : Nat), 400 ≤ c → c < 500 →
      outcomes i = some (.httpStatus c) →
      runRetry retryableShared outcomes i (n + 1) = .raised (.httpStatus c) (i + 1)) ∧
    (∀ (outcomes : Nat → Option PostFailure) (i n : Nat) (e : PostFailure),
      retryableShared e = true → outcomes i = some e →
      runRetry retryableShared outcomes i (n + 2) =
        runRetry retryableShared outcomes (i + 1) (n + 1)) := by
  refine ⟨?_, ?_, ?_⟩
  · intro e
    cases e with
    | network => simp [retryableShared]
    | timeout => simp [retryableShared]
    | httpStatus c =>
      simp only [retryableShared, decide_eq_true_eq]
      constructor
      · intro h
        exact Or.inr (Or.inr ⟨c, h, rfl⟩)
      · rintro (h | h | ⟨c2, hc2, he⟩)
        · exact absurd h (by simp)
        · exact absurd h (by simp)
        · cases he
          exact hc2
  · intro outcomes i n c h4 h5 ho
    rw [runRetry_succ, ho]
    have hnr : retryableShared (.httpStatus c) = false := by
      simp only [retryableShared, decide_eq_false_iff_not]
      omega
    simp [hnr]
  · intro outcomes i n e hret ho
    rw [show n + 2 = (n + 1) + 1 from rfl, runRetry_succ, ho]
    simp [hret]

theorem C4_retry_classification_shared_dispatcher_witness :
    (400 ≤ 404 ∧ 404 < 500 ∧
      (fun _ : Nat => some (PostFailure.httpStatus 404)) 0 = some (.httpStatus 404)) ∧
    runRetry retryableShared (fun _ => some (.httpStatus 404)) 0 (2 + 1) =
      .raised (.httpStatus 404) (0 + 1) :=
  ⟨⟨by decide, by decide, rfl⟩,
   C4_retry_classification_shared_dispatcher.2.1 (fun _ => some (.httpStatus 404)) 0 2 404
     (by decide) (by decide) rfl⟩

/-!
### C7: timestamp normalization in record assembly
-/

theorem getLast?_append_some {α} {l2 : List α} {z : α} (l1 : List α)
    (h : l2.getLast? = some z) : (l1 ++ l2).getLast? = some z := by
  rw [List.getLast?_append, h]
  rfl

theorem getLast?_cons_some {α} {l : List α} {z : α} (c : α)
    (h : l.getLast? = some z) : (c :: l).getLast? = some z := by
  cases l with
  | nil => exact absurd h (by simp)
  | cons b t =>
    rw [List.getLast?_cons_cons]
    exact h

/-- C7 counterexample: the claim asserts that a string timestamp with a
trailing "Z" has the "Z" stripped before send.  On the code,
Tracker._build_record passes string timestamps through unchanged: the
assembled record below still carries the trailing "Z".  (The "Z"
stripping in the snapshot lives in UniversalExtractor
_translate_to_api_format, which the track path never calls.) -/
theorem C7_claim_false_on_code :
    (buildRecord "openai_responses" none usageEx (some "r1")
        (.strTs "2025-01-01T00:00:00Z".toList) none none "g" nowEx).timestamp =
      "2025-01-01T00:00:00Z".toList ∧
    ("2025-01-01T00:00:00Z".toList).getLast? = some 'Z' := by
  constructor
  · decide
  · decide

/-- C7 (amended): a datetime timestamp is serialized with
`datetime.isoformat()` — for a UTC-aware datetime the result ends in
"+00:00", never "Z", and carries the microsecond field exactly when it
is nonzero; a non-empty string timestamp is passed through verbatim
(a trailing "Z" is not stripped); an absent (or empty-string) timestamp
defaults to now-in-UTC isoformat. -/
theorem C7_timestamp_normalization :
    (∀ (d : PyDateTime) (now : PyDateTime), d.utc = true →
      buildTimestamp (.dt d) now = isoformat d ∧ (isoformat d).getLast? = some '0') ∧
    (∀ (s : List Char) (now : PyDateTime), s ≠ [] → buildTimestamp (.strTs s) now = s) ∧
    (∀ now : PyDateTime, buildTimestamp .noneTs now = isoformat now) := by
  refine ⟨?_, ?_, ?_⟩
  · intro d now hutc
    refine ⟨rfl, ?_⟩
    unfold isoformat
    rw [hutc, if_pos rfl]
    have hlast : (['+', '0', '0', ':', '0', '0'] : List Char).getLast? = some '0' := rfl
    repeat
      first
      | exact hlast
      | apply getLast?_append_some
      | apply getLast?_cons_some
  · intro s now hs
    have hb : buildTimestamp (.strTs s) now = if s = [] then isoformat now else s := rfl
    rw [hb, if_neg hs]
  · intro now
    rfl

theorem C7_timestamp_normalization_witness :
    (nowEx.utc = true ∧ "x".toList ≠ ([] : List Char)) ∧
    ((buildTimestamp (.dt nowEx) nowEx = isoformat nowEx ∧
        (isoformat nowEx).getLast? = some '0') ∧
      buildTimestamp (.strTs "x".toList) nowEx = "x".toList) :=
  ⟨⟨rfl, by decide⟩,
   ⟨C7_timestamp_normalization.1 nowEx nowEx rfl,
    C7_timestamp_normalization.2.1 "x".toList nowEx (by decide)⟩⟩

/-!
### C8: the streaming wrapper
-/

theorem trackStreamGo_cons {α : Type} (f : α → Option Json) (c : α) (rest : List α)
    (b : Bool) :
    trackStreamGo f (c :: rest) b =
      if b then
        ((c :: (trackStreamGo f rest true).1, (trackStreamGo f rest true).2) :
          List α × List Json)
      else
        match f c with
        | some u => (c :: (trackStreamGo f rest true).1, u :: (trackStreamGo f rest true).2)
        | none => (c :: (trackStreamGo f rest false).1, (trackStreamGo f rest false).2) := by
  cases b with
  | true => rfl
  | false => rfl

theorem trackStreamGo_sent {α : Type} (f : α → Option Json) :
    ∀ l : List α, trackStreamGo f l true = (l, []) := by
  intro l
  induction l with
  | nil => rfl
  | cons c rest ih =>
    rw [trackStreamGo_cons, if_pos rfl, ih]

/-- C8: Tracker.track_llm_stream_usage yields every event of the
wrapped stream unchanged and in order, and tracks at most once per
stream: the usages passed to `track` are exactly the first successful
non-empty extraction (empty, when no event yields usage), so after the
first hit no later event triggers another track call. -/
theorem C8_stream_passthrough_track_once {α : Type} (f : α → Option Json)
    (chunks : List α) :
    (trackStream f chunks).1 = chunks ∧
    (trackStream f chunks).2 = (chunks.findSome? f).toList := by
  unfold trackStream
  induction chunks with
  | nil => exact ⟨rfl, rfl⟩
  | cons c rest ih =>
    cases hfc : f c with
    | some u =>
      rw [trackStreamGo_cons]
      simp [hfc, trackStreamGo_sent, List.findSome?_cons]
    | none =>
      rw [trackStreamGo_cons]
      simp only [if_neg (by simp : ¬ false = true), hfc]
      obtain ⟨ih1, ih2⟩ := ih
      constructor
      · simp [ih1]
      · simp [ih2, List.findSome?_cons, hfc]

/-!
### C2: the persistent worker and the triggered-limits cache
-/

theorem natDigits_one : natDigits 1 = ['1'] := by
  rw [natDigits_succ (by omega), natDigits_zero]
  simp [digitChar]

theorem intToChars_one : intToChars 1 = ['1'] := by
  unfold intToChars
  rw [if_neg (by omega)]
  show natToChars 1 = ['1']
  unfold natToChars
  rw [if_neg (by omega), natDigits_one]

theorem escapeChars_v : escapeChars "v".toList = ['v'] := by decide

/-- C2 counterexample: the claim asserts that after a delivered batch
whose 2xx response carries a `triggered_limits` envelope, the INI
`[triggered_limits].payload` equals that envelope verbatim.  On the
code, PersistentDelivery._run_worker never reads the response body: in
the concrete run below the INI still holds the previously cached empty
envelope, not the one in the response. -/
theorem C2_claim_false_on_code :
    (runWorkerOnce 5 10 100 true (some envC2) [rowC2] iniC2).2 = iniC2 ∧
    getOption (runWorkerOnce 5 10 100 true (some envC2) [rowC2] iniC2).2
      "triggered_limits" "payload" ≠ some (dumpsVal envC2) := by
  refine ⟨rfl, ?_⟩
  intro hcontra
  have h0 : getOption (runWorkerOnce 5 10 100 true (some envC2) [rowC2] iniC2).2
      "triggered_limits" "payload" = some (dumpsVal (Json.obj [])) := rfl
  rw [h0] at hcontra
  have h1 : dumpsVal (Json.obj []) = [lbChar, rbChar] := dumpsVal_obj_nil
  have h2 : dumpsVal envC2 =
      lbChar :: ((qChar :: ['v'] ++ qChar :: ':' :: ' ' :: ['1']) ++ [rbChar]) := by
    show dumpsVal (Json.obj [("v".toList, Json.num 1)]) = _
    rw [dumpsVal_obj_cons, dumpsFields_nil, dumpsVal_num, intToChars_one, escapeChars_v]
    simp
  rw [h1, h2] at hcontra
  exact absurd hcontra (by decide)

/-- C2 (amended): the persistent worker leaves the INI file (and hence
the `[triggered_limits].payload` entry) unchanged on both the success
and the failure path: the server response's `triggered_limits` field is
never extracted or written by PersistentDelivery._run_worker. -/
theorem C2_persistent_worker_leaves_ini_unchanged
    (maxRetries now limit : Nat) (postOk : Bool) (respTL : Option Json)
    (table : List QRow) (ini : IniFile) :
    (runWorkerOnce maxRetries now limit postOk respTL table ini).2 = ini := by
  unfold runWorkerOnce
  cases postOk with
  | true => rfl
  | false => rfl

/-!
### C5/C6: persistent-queue row lifecycle
-/

theorem foldl_reschedule (mr now : Nat) :
    ∀ (rows table : List QRow),
    rows.foldl (fun t r => reschedule mr now r.id (r.retry_count + 1) t) table =
      table.map (fun q => rows.foldl (fun x r =>
        if x.id = r.id then
          { x with
            status := if mr ≤ r.retry_count + 1 then "failed" else "queued",
            retry_count := r.retry_count + 1,
            scheduled_at := if mr ≤ r.retry_count + 1 then now
              else now + min (2 ^ (r.retry_count + 1)) 300,
            updated_at := now }
        else x) q) := by
  intro rows
  induction rows with
  | nil =>
    intro table
    simp
  | cons r rest ih =>
    intro table
    rw [List.foldl_cons, ih]
    unfold reschedule
    rw [List.map_map]
    rfl

theorem foldl_rowUpd_of_ne (mr now : Nat) :
    ∀ (rows : List QRow) (q : QRow), (∀ r ∈ rows, r.id ≠ q.id) →
    rows.foldl (fun x r =>
      if x.id = r.id then
        { x with
          status := if mr ≤ r.retry_count + 1 then "failed" else "queued",
          retry_count := r.retry_count + 1,
          scheduled_at := if mr ≤ r.retry_count + 1 then now
            else now + min (2 ^ (r.retry_count + 1)) 300,
          updated_at := now }
      else x) q = q := by
  intro rows
  induction rows with
  | nil =>
    intro q _
    rfl
  | cons r rest ih =>
    intro q hne
    rw [List.foldl_cons]
    rw [show (if q.id = r.id then
        ({ q with
          status := if mr ≤ r.retry_count + 1 then "failed" else "queued",
          retry_count := r.retry_count + 1,
          scheduled_at := if mr ≤ r.retry_count + 1 then now
            else now + min (2 ^ (r.retry_count + 1)) 300,
          updated_at := now } : QRow)
      else q) = q from if_neg (fun h => hne r (by simp) h.symm)]
    exact ih q (fun r2 h2 => hne r2 (by simp [h2]))

theorem foldl_rowUpd_hit (mr now : Nat) :
    ∀ (rows : List QRow) (q row : QRow),
    (rows.map (fun r => r.id)).Nodup → row ∈ rows → q.id = row.id →
    rows.foldl (fun x r =>
      if x.id = r.id then
        { x with
          status := if mr ≤ r.retry_count + 1 then "failed" else "queued",
          retry_count := r.retry_count + 1,
          scheduled_at := if mr ≤ r.retry_count + 1 then now
            else now + min (2 ^ (r.retry_count + 1)) 300,
          updated_at := now }
      else x) q =
      { q with
        status := if mr ≤ row.retry_count + 1 then "failed" else "queued",
        retry_count := row.retry_count + 1,
        scheduled_at := if mr ≤ row.retry_count + 1 then now
          else now + min (2 ^ (row.retry_count + 1)) 300,
        updated_at := now } := by
  intro rows
  induction rows with
  | nil =>
    intro q row _ hmem _
    simp at hmem
  | cons r rest ih =>
    intro q row hnodup hmem hid
    rw [List.map_cons, List.nodup_cons] at hnodup
    obtain ⟨hnotin, hnd⟩ := hnodup
    rw [List.foldl_cons]
    rcases List.mem_cons.mp hmem with heq | hmem2
    · subst heq
      rw [if_pos hid]
      apply foldl_rowUpd_of_ne
      intro r2 hr2 he
      have he2 : r2.id = q.id := he
      apply hnotin
      rw [← hid, ← he2]
      exact List.mem_map_of_mem _ hr2
    · have hrne : r.id ≠ row.id := by
        intro he
        exact hnotin (he ▸ List.mem_map_of_mem _ hmem2)
      rw [if_neg (fun h => hrne (h.symm.trans hid))]
      exact ih q row hnd hmem2 hid

theorem mem_pickRows_queued {r : QRow} {t : List QRow} {n l : Nat}
    (h : r ∈ pickRows t n l) : r ∈ t ∧ r.status = "queued" ∧ r.scheduled_at ≤ n := by
  unfold pickRows at h
  have hf := List.mem_filter.mp (List.mem_of_mem_take h)
  obtain ⟨hmem, hp⟩ := hf
  rw [Bool.and_eq_true] at hp
  refine ⟨hmem, ?_, ?_⟩
  · simpa using hp.1
  · simpa using hp.2

theorem not_mem_pickRows_of_not_queued {r : QRow} (h : r.status ≠ "queued") :
    ∀ (t : List QRow) (n l : Nat), r ∉ pickRows t n l := by
  intro t n l hmem
  exact h (mem_pickRows_queued hmem).2.1

/-- C5: in the persistent queue, a picked row whose batch POST fails is
rescheduled with `retry_count` incremented by one: when the new count
is still below max_retries it returns to status "queued" with
`scheduled_at = now + min(2 ** retry_count, 300)`; once the new count
reaches max_retries it becomes terminal "failed" (with `scheduled_at =
now`) and is excluded from any future pickup. -/
theorem C5_reschedule_backoff_and_terminal_failed
    (maxRetries now limit : Nat) (respTL : Option Json) (table : List QRow)
    (ini : IniFile)
    (hnodup : (table.map (fun r => r.id)).Nodup)
    (row : QRow) (hrow : row ∈ pickRows table now limit) :
    ({ row with
        status := if maxRetries ≤ row.retry_count + 1 then "failed" else "queued",
        retry_count := row.retry_count + 1,
        scheduled_at := if maxRetries ≤ row.retry_count + 1 then now
          else now + min (2 ^ (row.retry_count + 1)) 300,
        updated_at := now } : QRow) ∈
      (runWorkerOnce maxRetries now limit false respTL table ini).1 ∧
    (maxRetries ≤ row.retry_count + 1 →
      ∀ now2 limit2, ({ row with
        status := if maxRetries ≤ row.retry_count + 1 then "failed" else "queued",
        retry_count := row.retry_count + 1,
        scheduled_at := if maxRetries ≤ row.retry_count + 1 then now
          else now + min (2 ^ (row.retry_count + 1)) 300,
        updated_at := now } : QRow) ∉
        pickRows (runWorkerOnce maxRetries now limit false respTL table ini).1
          now2 limit2) := by
  have hmemt : row ∈ table := (mem_pickRows_queued hrow).1
  have hidin : row.id ∈ (pickRows table now limit).map (fun r => r.id) :=
    List.mem_map_of_mem _ hrow
  have hcontains :
      ((pickRows table now limit).map (fun r => r.id)).contains row.id = true :=
    List.elem_eq_true_of_mem hidin
  have hmark : ({ row with status := "processing", updated_at := now } : QRow) ∈
      markProcessing table ((pickRows table now limit).map (fun r => r.id)) now := by
    unfold markProcessing
    apply List.mem_map.mpr
    refine ⟨row, hmemt, ?_⟩
    show (if ((pickRows table now limit).map (fun r => r.id)).contains row.id = true then
        ({ row with status := "processing", updated_at := now } : QRow)
      else row) = _
    rw [if_pos hcontains]
  have hnodup2 : ((pickRows table now limit).map (fun r => r.id)).Nodup := by
    apply hnodup.sublist
    apply List.Sublist.map
    exact (List.take_sublist _ _).trans (List.filter_sublist _)
  have hresult : (runWorkerOnce maxRetries now limit false respTL table ini).1 =
      (pickRows table now limit).foldl
        (fun t r => reschedule maxRetries now r.id (r.retry_count + 1) t)
        (markProcessing table ((pickRows table now limit).map (fun r => r.id)) now) :=
    rfl
  have hfold := foldl_rowUpd_hit maxRetries now (pickRows table now limit)
    ({ row with status := "processing", updated_at := now }) row hnodup2 hrow rfl
  have hmem2 : ({ row with
      status := if maxRetries ≤ row.retry_count + 1 then "failed" else "queued",
      retry_count := row.retry_count + 1,
      scheduled_at := if maxRetries ≤ row.retry_count + 1 then now
        else now + min (2 ^ (row.retry_count + 1)) 300,
      updated_at := now } : QRow) ∈
      (runWorkerOnce maxRetries now limit false respTL table ini).1 := by
    rw [hresult, foldl_reschedule]
    apply List.mem_map.mpr
    exact ⟨{ row with status := "processing", updated_at := now }, hmark, hfold⟩
  refine ⟨hmem2, ?_⟩
  intro hfail now2 limit2
  apply not_mem_pickRows_of_not_queued
  show (if maxRetries ≤ row.retry_count + 1 then "failed" else "queued") ≠ "queued"
  rw [if_pos hfail]
  decide

theorem C5_reschedule_backoff_and_terminal_failed_witness :
    (([rowC5].map (fun r => r.id)).Nodup ∧ rowC5 ∈ pickRows [rowC5] 7 100) ∧
    (({ rowC5 with
        status := if 5 ≤ rowC5.retry_count + 1 then "failed" else "queued",
        retry_count := rowC5.retry_count + 1,
        scheduled_at := if 5 ≤ rowC5.retry_count + 1 then 7
          else 7 + min (2 ^ (rowC5.retry_count + 1)) 300,
        updated_at := 7 } : QRow) ∈
      (runWorkerOnce 5 7 100 false none [rowC5] (IniFile.mk [])).1 ∧
    (5 ≤ rowC5.retry_count + 1 →
      ∀ now2 limit2, ({ rowC5 with
        status := if 5 ≤ rowC5.retry_count + 1 then "failed" else "queued",
        retry_count := rowC5.retry_count + 1,
        scheduled_at := if 5 ≤ rowC5.retry_count + 1 then 7
          else 7 + min (2 ^ (rowC5.retry_count + 1)) 300,
        updated_at := 7 } : QRow) ∉
        pickRows (runWorkerOnce 5 7 100 false none [rowC5] (IniFile.mk [])).1
          now2 limit2)) :=
  ⟨⟨by decide, by exact List.mem_singleton_self rowC5⟩,
   C5_reschedule_backoff_and_terminal_failed 5 7 100 none [rowC5] (IniFile.mk [])
     (by decide) rowC5 (by exact List.mem_singleton_self rowC5)⟩

/-- C6: for every record enqueued via the persistent queue, after one
successful (2xx) delivery of a batch containing it (that is, every row
carrying the record's response_id was picked into the delivered batch),
no row carrying that response_id remains in the queue table: the worker
deletes every row of the delivered batch. -/
theorem C6_success_deletes_delivered_rows
    (maxRetries now limit : Nat) (respTL : Option Json) (table : List QRow)
    (ini : IniFile) (rid : String)
    (hall : ∀ r ∈ table, r.payload.response_id = rid →
      r.id ∈ (pickRows table now limit).map (fun r => r.id)) :
    ∀ r ∈ (runWorkerOnce maxRetries now limit true respTL table ini).1,
      r.payload.response_id ≠ rid := by
  intro r hr hrid
  have hres : (runWorkerOnce maxRetries now limit true respTL table ini).1 =
      deleteRows
        (markProcessing table ((pickRows table now limit).map (fun r => r.id)) now)
        ((pickRows table now limit).map (fun r => r.id)) := rfl
  rw [hres] at hr
  unfold deleteRows at hr
  obtain ⟨hmem, hnc⟩ := List.mem_filter.mp hr
  unfold markProcessing at hmem
  obtain ⟨r0, hr0, hr0eq⟩ := List.mem_map.mp hmem
  have hpay : r.payload = r0.payload := by
    rw [← hr0eq]
    split <;> rfl
  have hid : r.id = r0.id := by
    rw [← hr0eq]
    split <;> rfl
  have hin := hall r0 hr0 (by rw [← hpay]; exact hrid)
  rw [← hid] at hin
  have helem := List.elem_eq_true_of_mem hin
  have hnc2 : (!(List.elem r.id ((pickRows table now limit).map (fun r => r.id)))) = true := hnc
  rw [helem] at hnc2
  simp at hnc2

theorem C6_success_deletes_delivered_rows_witness :
    (∀ r ∈ [rowC2], r.payload.response_id = "evt1" →
      r.id ∈ (pickRows [rowC2] 7 100).map (fun r => r.id)) ∧
    (∀ r ∈ (runWorkerOnce 5 7 100 true none [rowC2] (IniFile.mk [])).1,
      r.payload.response_id ≠ "evt1") :=
  ⟨by
    intro r hr hrid
    rw [List.mem_singleton] at hr
    subst hr
    decide,
   C6_success_deletes_delivered_rows 5 7 100 none [rowC2] (IniFile.mk []) "evt1"
     (by
       intro r hr hrid
       rw [List.mem_singleton] at hr
       subst hr
       decide)⟩

end AicmSpec
